import Mathlib

/-!
# netmap-fwd: `netmap.c`

A shallow embedding of `src/netmap.c` (the RX dispatcher `netmap_read`, the
VALE control request `netmap_vale_cmd`, and the lifecycle functions
`netmap_open` / `netmap_close`) together with theorems about the embedding.

Conventions.

* C `int` flags (`nohostring`, `nm_if_vale`) are `Int`; "set" means `≠ 0`.
* Pointers are `Int` addresses, `NULL = 0`, `MAP_FAILED = (void *)-1 = -1`.
* C strings are `List Char` (the bytes before the terminating NUL).
* External functions (`ether_input`, `ether_bridge`, `if_netmap_txsync`, the
  system calls and libevent) are parameters: arbitrary functions of an
  abstract external state.  Every call the code makes is recorded in a trace.
* `pkts` is an unbounded `Int`: with `burst ≥ 1` the counter never exceeds
  `burst`, so no `int` overflow can occur; with `burst ≤ 0` the C counter
  would need more than `2^31 - 1` slots in one dispatch to overflow.
* `int rx_rings` receives the `uint32_t` `ni_rx_rings` as its 32-bit pattern
  read in two's complement, so a count of `2^31` or more gives a loop bound
  below 1 and nothing is scanned.
* The loops of `netmap_read` take fuel; the theorems give the fuel that lets
  a dispatch return.
* `perror` and `DPRINTF` only print and are left out.  `netmap_tx_sync` is not
  covered.
* The headers `netmap.h` and `if.h` of the repository are not among the
  sources: the three ring macros follow the specification, and the handle has
  the fields `netmap.c` uses, the mapped size being unsigned.
-/

namespace Netmap

/-! ## Ring view -/

/-- One ring slot: the buffer it references and the packet length. -/
structure netmap_slot where
  buf_idx : Nat
  len : Nat
deriving DecidableEq, Repr, Inhabited

/-- The part of `struct netmap_ring` the dispatcher touches: slot count,
cursor, the kernel-published end of the received data (`tail`), the slots. -/
structure netmap_ring where
  num_slots : Nat
  cur : Nat
  tail : Nat
  slot : Nat → netmap_slot

/-- `nm_ring_empty` (netmap_user.h): the cursor has caught up with what the
kernel published. -/
def nm_ring_empty (r : netmap_ring) : Bool := r.cur == r.tail

/-- `nm_ring_next` (netmap_user.h): the next slot index, wrapping at the slot
count. -/
def nm_ring_next (r : netmap_ring) (i : Nat) : Nat :=
  if i + 1 = r.num_slots then 0 else i + 1

/-- Modelled from the spec: the macro `NETMAP_GET_BUF` of the repository's
`netmap.h` (not among the sources): the buffer of the slot at the cursor. -/
def NETMAP_GET_BUF (r : netmap_ring) : Nat := (r.slot r.cur).buf_idx

/-- Modelled from the spec: the macro `NETMAP_SLOT_LEN` of the repository's
`netmap.h` (not among the sources): the length of the slot at the cursor. -/
def NETMAP_SLOT_LEN (r : netmap_ring) : Nat := (r.slot r.cur).len

/-- Modelled from the spec: the macro `NETMAP_RING_NEXT` of the repository's
`netmap.h` (not among the sources): moves the cursor to the next slot, modulo
the slot count; never fails. -/
def NETMAP_RING_NEXT (r : netmap_ring) : netmap_ring :=
  { r with cur := nm_ring_next r r.cur }

/-- The part of `struct netmap_if` the dispatcher reads: the hardware RX ring
count (a `uint32_t`) and the RX rings (`NETMAP_RXRING(ifp, i)`); index `ni_rx_rings` is the
host-stack ring. -/
structure netmap_if where
  ni_rx_rings : Nat
  rxring : Nat → netmap_ring

/-! ## Interface handle -/

/-- The handle `struct nm_if` (declared in `if.h`): the fields `netmap.c`
uses.  `nm_if_ifp` is the address `NETMAP_IF(mem, offset)`; the dispatcher is
given the `netmap_if` found there as a separate argument. -/
structure nm_if where
  nm_if_name : List Char
  nm_if_vale : Int
  nm_if_fd : Int
  nm_if_memsize : Nat
  nm_if_mem : Int
  nm_if_ifp : Int
  nm_if_ev_read : Int
  nm_if_txsync : Int
deriving DecidableEq, Repr

/-! ## RX dispatcher -/

/-- A call the dispatcher makes to its collaborators, with the arguments
(ring index, buffer, length) and, for the two packet callbacks, the value
they returned. -/
inductive RxCall where
  | ether_input (ring : Nat) (buf : Nat) (len : Nat) (ret : Int)
  | ether_bridge (ring : Nat) (buf : Nat) (len : Nat) (ret : Int)
  | if_netmap_txsync
deriving DecidableEq, Repr

/-- The globals and external functions `netmap_read` depends on.  `σ` is the
state of everything outside the RX rings (counters, TX rings, other
interfaces); a callback may read and change it at will. -/
structure RxEnv (σ : Type) where
  burst : Int
  nohostring : Int
  ether_input : σ → Nat → Nat → Nat → Int × σ
  ether_bridge : σ → Nat → Nat → Nat → Int × σ
  if_netmap_txsync : σ → σ

/-- The mutable state of one dispatch. -/
structure RxState (σ : Type) where
  rings : Nat → netmap_ring
  ext : σ
  pkts : Int

/-- The value an `int` receives from a `uint32_t`: the 32-bit pattern read as
two's complement. -/
def int_of_uint32 (n : Nat) : Int :=
  if n % 4294967296 < 2147483648 then ((n % 4294967296 : Nat) : Int)
  else ((n % 4294967296 : Nat) : Int) - 4294967296

/-- The increment `x++` of an `int`; at `INT_MAX` (undefined in C) it wraps to
`INT_MIN`, as the usual compilation does. -/
def int_incr (x : Int) : Int := if x = 2147483647 then -2147483648 else x + 1

/-- Lines 61-63: the local `int rx_rings`, loaded from the `uint32_t`
`ni_rx_rings` and incremented for the host ring. -/
def rx_rings (nohostring : Int) (nmif : nm_if) (ifp : netmap_if) : Int :=
  if nohostring = 0 ∧ nmif.nm_if_vale = 0 then int_incr (int_of_uint32 ifp.ni_rx_rings)
  else int_of_uint32 ifp.ni_rx_rings

/-- The number of rings the loop of line 65 ranges over: the indices `i ≥ 0`
with `i < rx_rings` (none when `rx_rings ≤ 0`). -/
def scanned_rings (nohostring : Int) (nmif : nm_if) (ifp : netmap_if) : Nat :=
  (rx_rings nohostring nmif ifp).toNat

/-- Lines 68-76, one iteration of the `while` body on ring `i`: the new
state, the calls made, and whether control leaves through `goto done`. -/
def slot_step {σ : Type} (env : RxEnv σ) (i : Nat) (s : RxState σ) :
    RxState σ × List RxCall × Bool :=
  let nring := s.rings i
  let buf := NETMAP_GET_BUF nring
  let len := NETMAP_SLOT_LEN nring
  let r1 := env.ether_input s.ext i buf len
  let rings1 := Function.update s.rings i (NETMAP_RING_NEXT nring)
  if env.nohostring = 0 ∧ r1.1 = 1 then
    let r2 := env.ether_bridge r1.2 i buf len
    let evs := [RxCall.ether_input i buf len r1.1, RxCall.ether_bridge i buf len r2.1]
    if r2.1 < 0 then (⟨rings1, r2.2, s.pkts⟩, evs, true)
    else (⟨rings1, r2.2, s.pkts + 1⟩, evs, s.pkts + 1 == env.burst)
  else
    let evs := [RxCall.ether_input i buf len r1.1]
    if r1.1 < 0 then (⟨rings1, r1.2, s.pkts⟩, evs, true)
    else (⟨rings1, r1.2, s.pkts + 1⟩, evs, s.pkts + 1 == env.burst)

/-- Lines 65-78: the `for` loop over the rings with its inner `while`, started
at ring `i`, where `rx` is the number of rings the loop ranges over.  Each unit of fuel pays for one test of a loop condition; `none`
means the fuel ran out before the label `done` was reached. -/
def scan {σ : Type} (env : RxEnv σ) (rx : Nat) :
    Nat → Nat → RxState σ → Option (RxState σ × List RxCall)
  | 0, _, _ => none
  | fuel + 1, i, s =>
    if i < rx then
      if nm_ring_empty (s.rings i) then scan env rx fuel (i + 1) s
      else
        let r := slot_step env i s
        if r.2.2 then some (r.1, r.2.1)
        else (scan env rx fuel i r.1).map (fun q => (q.1, r.2.1 ++ q.2))
    else some (s, [])

/-- What one dispatch leaves behind. -/
structure RxResult (σ : Type) where
  rings : Nat → netmap_ring
  ext : σ
  calls : List RxCall

/-- The dispatcher `netmap_read` (lines 50-81) on the handle `nmif` whose
`nm_if_ifp` points at `ifp`. -/
def netmap_read {σ : Type} (env : RxEnv σ) (fuel : Nat) (nmif : nm_if)
    (ifp : netmap_if) (ext : σ) : Option (RxResult σ) :=
  (scan env (scanned_rings env.nohostring nmif ifp) fuel 0 ⟨ifp.rxring, ext, 0⟩).map
    (fun q => ⟨q.1.rings, env.if_netmap_txsync q.1.ext,
      q.2 ++ [RxCall.if_netmap_txsync]⟩)

/-! ## Strings and the kernel request record -/

/-- `IF_NAMESIZE` (net/if.h), the size of `ifbuf`. -/
def IF_NAMESIZE : Nat := 16

/-- `sizeof(nmreq.nr_name)`: `IFNAMSIZ` (net/netmap.h, net/if.h). -/
def NR_NAME_SIZE : Nat := 16

/-- `strchr(s, c)` as the offset of the first occurrence (`none` for the NULL
result). -/
def strchr (s : List Char) (c : Char) : Option Nat :=
  if c ∈ s then some (s.indexOf c) else none

/-- `snprintf(buf, size, ...)`: of the formatted text `out` at most
`size - 1` characters are stored in front of the terminating NUL. -/
def snprintf (size : Nat) (out : List Char) : List Char := out.take (size - 1)

/-- `strlcpy(dst, src, size)`: `dst` receives at most `size - 1` characters of
`src`. -/
def strlcpy (src : List Char) (size : Nat) : List Char := src.take (size - 1)

/-- The command codes `nr_cmd` takes in this file (`0` after `memset`). -/
inductive nr_cmd_t where
  | zero
  | NETMAP_BDG_ATTACH
  | NETMAP_BDG_DETACH
deriving DecidableEq, Repr

/-- The ring-selection values `nr_flags` takes in this file. -/
inductive nr_flags_t where
  | zero
  | NR_REG_ALL_NIC
  | NR_REG_NIC_SW
deriving DecidableEq, Repr

/-- The request record `struct nmreq`; `nr_version` is `true` once it holds
`NETMAP_API`. -/
structure nmreq where
  nr_name : List Char
  nr_version : Bool
  nr_offset : Nat
  nr_memsize : Nat
  nr_tx_rings : Nat
  nr_rx_rings : Nat
  nr_cmd : nr_cmd_t
  nr_flags : nr_flags_t
deriving DecidableEq, Repr

/-- The record after `memset(&nmreq, 0, sizeof(nmreq))`. -/
def nmreq_zero : nmreq :=
  ⟨[], false, 0, 0, 0, 0, nr_cmd_t.zero, nr_flags_t.zero⟩

/-! ## System calls and the event library -/

/-- `NULL`. -/
def NULL : Int := 0

/-- `MAP_FAILED`, `(void *)-1`. -/
def MAP_FAILED : Int := -1

/-- A call `netmap.c` makes to the operating system or to libevent, with its
arguments and the value it returned (`ret`). -/
inductive SysCall where
  | sys_open (ret : Int)
  | ioctl_NIOCREGIF (fd : Int) (req : nmreq) (ret : Int)
  | sys_close (fd : Int) (ret : Int)
  | mmap (len : Nat) (fd : Int) (ret : Int)
  | munmap (addr : Int) (len : Nat) (ret : Int)
  | event_new (fd : Int) (ret : Int)
  | event_add (ev : Int) (ret : Int)
  | event_del (ev : Int) (ret : Int)
  | event_free (ev : Int)
deriving DecidableEq, Repr

/-- The outside world as `netmap.c` sees it: every system call and library
call is an arbitrary function of an abstract world state `W`, returning its C
result and the next world.  `ioctl_NIOCREGIF` also returns the request record
as the kernel wrote it back. -/
structure OS (W : Type) where
  sys_open : W → Int × W
  ioctl_NIOCREGIF : W → Int → nmreq → Int × nmreq × W
  sys_close : W → Int → Int × W
  mmap : W → Nat → Int → Int × W
  munmap : W → Int → Nat → Int × W
  event_new : W → Int → Int × W
  event_add : W → Int → Int × W
  event_del : W → Int → Int × W
  event_free : W → Int → W

/-- The result of a lifecycle function: C return value, the handle, the
world, the calls made in order. -/
structure Ret (W : Type) where
  ret : Int
  nmif : nm_if
  w : W
  trace : List SysCall

/-- `netmap_vale_cmd` (lines 83-105): a private control session carrying
`ifname` and `cmd`. -/
def netmap_vale_cmd {W : Type} (os : OS W) (ifname : List Char) (cmd : nr_cmd_t)
    (w : W) : Int × W × List SysCall :=
  let o := os.sys_open w
  if o.1 = -1 then (-1, o.2, [SysCall.sys_open o.1])
  else
    let req : nmreq := { nmreq_zero with
      nr_name := strlcpy ifname NR_NAME_SIZE,
      nr_version := true,
      nr_cmd := cmd,
      nr_flags := nr_flags_t.NR_REG_ALL_NIC }
    let r := os.ioctl_NIOCREGIF o.2 o.1 req
    let c := os.sys_close r.2.2 o.1
    (r.1, c.2, [SysCall.sys_open o.1, SysCall.ioctl_NIOCREGIF o.1 req r.1,
      SysCall.sys_close o.1 c.1])

/-- `netmap_vale_attach` (lines 107-112). -/
def netmap_vale_attach {W : Type} (os : OS W) (nmif : nm_if) (w : W) :
    Int × W × List SysCall :=
  netmap_vale_cmd os nmif.nm_if_name nr_cmd_t.NETMAP_BDG_ATTACH w

/-- `netmap_vale_detach` (lines 114-119). -/
def netmap_vale_detach {W : Type} (os : OS W) (nmif : nm_if) (w : W) :
    Int × W × List SysCall :=
  netmap_vale_cmd os nmif.nm_if_name nr_cmd_t.NETMAP_BDG_DETACH w

/-- Lines 197-201 of `netmap_close`: release the event. -/
def close_event {W : Type} (os : OS W) (nmif : nm_if) (w : W) :
    nm_if × W × List SysCall :=
  if nmif.nm_if_ev_read ≠ NULL then
    let d := os.event_del w nmif.nm_if_ev_read
    ({ nmif with nm_if_ev_read := NULL }, os.event_free d.2 nmif.nm_if_ev_read,
      [SysCall.event_del nmif.nm_if_ev_read d.1, SysCall.event_free nmif.nm_if_ev_read])
  else (nmif, w, [])

/-- Lines 202-206 of `netmap_close`: unmap the region. -/
def close_unmap {W : Type} (os : OS W) (nmif : nm_if) (w : W) :
    nm_if × W × List SysCall :=
  if nmif.nm_if_mem ≠ NULL ∧ nmif.nm_if_memsize > 0 then
    let u := os.munmap w nmif.nm_if_mem nmif.nm_if_memsize
    ({ nmif with nm_if_mem := NULL, nm_if_memsize := 0 }, u.2,
      [SysCall.munmap nmif.nm_if_mem nmif.nm_if_memsize u.1])
  else (nmif, w, [])

/-- Lines 207-219 of `netmap_close`: close the descriptor and detach. -/
def close_fd {W : Type} (os : OS W) (nmif : nm_if) (w : W) : Ret W :=
  if nmif.nm_if_fd = -1 then ⟨0, nmif, w, []⟩
  else
    let c := os.sys_close w nmif.nm_if_fd
    if c.1 = -1 then ⟨-1, nmif, c.2, [SysCall.sys_close nmif.nm_if_fd c.1]⟩
    else
      let h : nm_if := { nmif with nm_if_fd := -1 }
      if h.nm_if_vale ≠ 0 then
        let d := netmap_vale_detach os h c.2
        ⟨0, h, d.2.1, SysCall.sys_close nmif.nm_if_fd c.1 :: d.2.2⟩
      else ⟨0, h, c.2, [SysCall.sys_close nmif.nm_if_fd c.1]⟩

/-- `netmap_close` (lines 193-220). -/
def netmap_close {W : Type} (os : OS W) (nmif : nm_if) (w : W) : Ret W :=
  let a := close_event os nmif w
  let b := close_unmap os a.1 a.2.1
  let c := close_fd os b.1 b.2.1
  ⟨c.ret, c.nmif, c.w, a.2.2 ++ b.2.2 ++ c.trace⟩

/-- Lines 129-144: the name `netmap_open` registers under. -/
def ifname (nmif : nm_if) : List Char :=
  if nmif.nm_if_vale ≠ 0 then
    let len := match strchr nmif.nm_if_name ':' with
      | some p => p
      | none => 0
    snprintf (IF_NAMESIZE - 1) (nmif.nm_if_name.take len ++ ":nmfwd0".toList)
  else nmif.nm_if_name

/-- Lines 152-160: the registration request. -/
def regif_request (nohostring : Int) (nmif : nm_if) : nmreq :=
  let r0 : nmreq := { nmreq_zero with
    nr_name := strlcpy (ifname nmif) NR_NAME_SIZE,
    nr_version := true,
    nr_flags := if nohostring ≠ 0 ∨ nmif.nm_if_vale ≠ 0 then nr_flags_t.NR_REG_ALL_NIC
      else nr_flags_t.NR_REG_NIC_SW }
  if nmif.nm_if_vale ≠ 0 then { r0 with nr_tx_rings := 4, nr_rx_rings := 4 } else r0

/-- Lines 177-190 of `netmap_open`: map the region the kernel reported in
`out` and subscribe the descriptor. -/
def open_map {W : Type} (os : OS W) (nmif : nm_if) (out : nmreq) (w : W) : Ret W :=
  let h2 : nm_if := { nmif with nm_if_memsize := out.nr_memsize }
  let m := os.mmap w h2.nm_if_memsize h2.nm_if_fd
  let h3 : nm_if := { h2 with nm_if_mem := m.1 }
  let t3 := [SysCall.mmap h2.nm_if_memsize h2.nm_if_fd m.1]
  if h3.nm_if_mem = MAP_FAILED then
    let c := netmap_close os h3 m.2
    ⟨-1, c.nmif, c.w, t3 ++ c.trace⟩
  else
    let h4 : nm_if := { h3 with nm_if_ifp := h3.nm_if_mem + out.nr_offset }
    let e := os.event_new m.2 h4.nm_if_fd
    let h5 : nm_if := { h4 with nm_if_ev_read := e.1 }
    let a := os.event_add e.2 h5.nm_if_ev_read
    ⟨0, h5, a.2, t3 ++ [SysCall.event_new h4.nm_if_fd e.1,
      SysCall.event_add h5.nm_if_ev_read a.1]⟩

/-- Lines 146-190 of `netmap_open`: everything after the name is chosen. -/
def open_dev {W : Type} (os : OS W) (nohostring : Int) (nmif : nm_if) (w : W) : Ret W :=
  let o := os.sys_open w
  let h1 : nm_if := { nmif with nm_if_fd := o.1 }
  if h1.nm_if_fd = -1 then ⟨-1, h1, o.2, [SysCall.sys_open o.1]⟩
  else
    let req := regif_request nohostring h1
    let r := os.ioctl_NIOCREGIF o.2 h1.nm_if_fd req
    let t2 := [SysCall.sys_open o.1, SysCall.ioctl_NIOCREGIF h1.nm_if_fd req r.1]
    if r.1 = -1 then
      let c := netmap_close os h1 r.2.2
      ⟨-1, c.nmif, c.w, t2 ++ c.trace⟩
    else
      let m := open_map os h1 r.2.1 r.2.2
      ⟨m.ret, m.nmif, m.w, t2 ++ m.trace⟩

/-- `netmap_open` (lines 121-191). -/
def netmap_open {W : Type} (os : OS W) (nohostring : Int) (nmif : nm_if) (w : W) :
    Ret W :=
  if nmif.nm_if_vale ≠ 0 then
    let a := netmap_vale_attach os nmif w
    if a.1 ≠ 0 then
      let c := netmap_close os nmif a.2.1
      ⟨-1, c.nmif, c.w, a.2.2 ++ c.trace⟩
    else
      let r := open_dev os nohostring nmif a.2.1
      ⟨r.ret, r.nmif, r.w, a.2.2 ++ r.trace⟩
  else open_dev os nohostring nmif w

/-- A handle that was never opened: descriptor `-1`, nothing mapped, no
event. -/
def unopened (nmif : nm_if) : Prop :=
  nmif.nm_if_fd = -1 ∧ nmif.nm_if_mem = NULL ∧ nmif.nm_if_memsize = 0 ∧
    nmif.nm_if_ev_read = NULL

instance (nmif : nm_if) : Decidable (unopened nmif) := by
  unfold unopened; infer_instance

/-! ## Notions used to state the properties of the dispatcher -/

/-- A ring whose cursor and published end are valid slot indices. -/
def ring_ok (r : netmap_ring) : Prop := r.cur < r.num_slots ∧ r.tail < r.num_slots

instance (r : netmap_ring) : Decidable (ring_ok r) := by
  unfold ring_ok; infer_instance

/-- The number of received slots waiting in a ring: the distance from the
cursor to the published end, going round the ring. -/
def pending (r : netmap_ring) : Nat :=
  if r.cur ≤ r.tail then r.tail - r.cur else r.tail + r.num_slots - r.cur

/-- The waiting slots of a ring in arrival order, as (buffer, length). -/
def pending_slots (r : netmap_ring) : List (Nat × Nat) :=
  (List.range (pending r)).map
    (fun k => ((r.slot ((r.cur + k) % r.num_slots)).buf_idx,
      (r.slot ((r.cur + k) % r.num_slots)).len))

/-- The waiting slots of rings `i, i+1, ..., i+n-1`, ring by ring, each ring
in arrival order, as (ring, buffer, length). -/
def scan_from (rings : Nat → netmap_ring) (i n : Nat) : List (Nat × Nat × Nat) :=
  (List.range' i n).flatMap (fun j => (pending_slots (rings j)).map (fun p => (j, p.1, p.2)))

/-- The scan order of a dispatch over `rx` rings: every waiting slot of ring
0, then of ring 1, and so on. -/
def scan_order (rings : Nat → netmap_ring) (rx : Nat) : List (Nat × Nat × Nat) :=
  scan_from rings 0 rx

/-- The slots handed to `ether_input`, in call order, as (ring, buffer,
length). -/
def inputs : List RxCall → List (Nat × Nat × Nat)
  | [] => []
  | RxCall.ether_input i b l _ :: t => (i, b, l) :: inputs t
  | _ :: t => inputs t

/-- The values `ether_input` returned, in call order. -/
def input_rets : List RxCall → List Int
  | [] => []
  | RxCall.ether_input _ _ _ r :: t => r :: input_rets t
  | _ :: t => input_rets t

/-- The calls to `ether_bridge`, in call order, as (ring, buffer, length). -/
def bridges : List RxCall → List (Nat × Nat × Nat)
  | [] => []
  | RxCall.ether_bridge i b l _ :: t => (i, b, l) :: bridges t
  | _ :: t => bridges t

/-- The values `ether_bridge` returned, in call order. -/
def bridge_rets : List RxCall → List Int
  | [] => []
  | RxCall.ether_bridge _ _ _ r :: t => r :: bridge_rets t
  | _ :: t => bridge_rets t

/-- How many of the slots in `l` belong to ring `j`. -/
def slots_of_ring (j : Nat) (l : List (Nat × Nat × Nat)) : Nat :=
  l.countP (fun x => x.1 == j)

/-- Fuel that lets a dispatch over well-formed rings reach `done`. -/
def scan_fuel (rings : Nat → netmap_ring) (rx : Nat) : Nat :=
  rx + (scan_order rings rx).length + 1

/-- The names of the registration requests in a trace: the `NIOCREGIF`
requests that carry no bridge command. -/
def registered_names : List SysCall → List (List Char)
  | [] => []
  | SysCall.ioctl_NIOCREGIF _ req _ :: t =>
    if req.nr_cmd = nr_cmd_t.zero then req.nr_name :: registered_names t
    else registered_names t
  | _ :: t => registered_names t

/-- The names of the bridge attach requests in a trace. -/
def attach_names : List SysCall → List (List Char)
  | [] => []
  | SysCall.ioctl_NIOCREGIF _ req _ :: t =>
    if req.nr_cmd = nr_cmd_t.NETMAP_BDG_ATTACH then req.nr_name :: attach_names t
    else attach_names t
  | _ :: t => attach_names t

/-- The part of a name in front of its first `':'` (the whole name when it
has none). -/
def base_name (name : List Char) : List Char := name.takeWhile (fun c => c != ':')

/-- The sequence `netmap_open(nmif); netmap_close(nmif);`: what the close
returns. -/
def open_then_close {W : Type} (os : OS W) (nohostring : Int) (nmif : nm_if) (w : W) :
    Ret W :=
  netmap_close os (netmap_open os nohostring nmif w).nmif (netmap_open os nohostring nmif w).w

/-! ## Concrete inputs -/

/-- A cooperative system: the device opens as descriptor 3, registration
reports a region of 4096 bytes at offset 16, the mapping lands at 4096000 and
the event library hands out token 7000; `mmap_ret` and `close_ret` are what
`mmap` and `close` return. -/
def sample_os (mmap_ret close_ret : Int) : OS Unit :=
  { sys_open := fun _ => (3, ()),
    ioctl_NIOCREGIF := fun _ _ r => (0, { r with nr_memsize := 4096, nr_offset := 16 }, ()),
    sys_close := fun _ _ => (close_ret, ()),
    mmap := fun _ _ _ => (mmap_ret, ()),
    munmap := fun _ _ _ => (0, ()),
    event_new := fun _ _ => (7000, ()),
    event_add := fun _ _ => (0, ()),
    event_del := fun _ _ => (0, ()),
    event_free := fun _ _ => () }

/-- A handle named `name` that was never opened. -/
def fresh_handle (name : String) (vale : Int) : nm_if :=
  ⟨name.toList, vale, -1, 0, NULL, 0, NULL, 0⟩



/-- A ring of `n` slots whose slot `k` references buffer `base + k` and holds
a 60-byte frame. -/
def sample_ring (n cur tail base : Nat) : netmap_ring :=
  ⟨n, cur, tail, fun k => ⟨base + k, 60⟩⟩

/-- Two hardware rings of eight slots: ring 0 has six slots waiting, ring 1
has two; every further ring (the host ring included) is empty. -/
def two_rings : netmap_if :=
  ⟨2, fun i => if i = 0 then sample_ring 8 0 6 100
    else if i = 1 then sample_ring 8 0 2 200 else sample_ring 8 0 0 300⟩

/-- The rings of `two_rings` under a ring count that does not fit an `int`. -/
def huge_count : netmap_if := ⟨4294967295, two_rings.rxring⟩

/-- One hardware ring with two slots waiting. -/
def one_ring : netmap_if :=
  ⟨1, fun i => if i = 0 then sample_ring 8 0 2 100 else sample_ring 8 0 0 300⟩

/-- An open hardware interface. -/
def hw_handle : nm_if := ⟨"em0".toList, 0, 3, 4096, 4096000, 4096016, 7000, 0⟩

/-- An open virtual-switch port. -/
def vale_handle : nm_if := ⟨"vale0:em0".toList, 1, 3, 4096, 4096000, 4096016, 7000, 0⟩

/-- Callbacks without state: `ether_input` always returns `r`, `ether_bridge`
always returns 0. -/
def const_env (burst nohostring r : Int) : RxEnv Unit :=
  ⟨burst, nohostring, fun _ _ _ _ => (r, ()), fun _ _ _ _ => (0, ()), fun _ => ()⟩

/-- Callbacks that count the packets seen: `ether_input` returns 0 except on
its third call, where it returns -1. -/
def third_fails_env (burst nohostring : Int) : RxEnv Nat :=
  ⟨burst, nohostring, fun n _ _ _ => (if n = 2 then -1 else 0, n + 1),
    fun n _ _ _ => (0, n), fun n => n⟩

/-! ## The loop: unfolding and induction -/

theorem inputs_append (a b : List RxCall) : inputs (a ++ b) = inputs a ++ inputs b := by
  induction a with
  | nil => rfl
  | cons x t ih => cases x <;> simp [inputs, ih]

theorem input_rets_append (a b : List RxCall) :
    input_rets (a ++ b) = input_rets a ++ input_rets b := by
  induction a with
  | nil => rfl
  | cons x t ih => cases x <;> simp [input_rets, ih]

theorem bridges_append (a b : List RxCall) : bridges (a ++ b) = bridges a ++ bridges b := by
  induction a with
  | nil => rfl
  | cons x t ih => cases x <;> simp [bridges, ih]

theorem bridge_rets_append (a b : List RxCall) :
    bridge_rets (a ++ b) = bridge_rets a ++ bridge_rets b := by
  induction a with
  | nil => rfl
  | cons x t ih => cases x <;> simp [bridge_rets, ih]

theorem input_rets_length (a : List RxCall) : (input_rets a).length = (inputs a).length := by
  induction a with
  | nil => rfl
  | cons x t ih => cases x <;> simp [input_rets, inputs, ih]

/-- Induction along a run of `scan` that reaches `done`. -/
theorem scan_ind {σ : Type} (env : RxEnv σ) (rx : Nat)
    (motive : Nat → RxState σ → RxState σ → List RxCall → Prop)
    (exit : ∀ i s, ¬ i < rx → motive i s s [])
    (next : ∀ i s t evs, i < rx → nm_ring_empty (s.rings i) = true →
      motive (i + 1) s t evs → motive i s t evs)
    (stop : ∀ i s, i < rx → nm_ring_empty (s.rings i) = false →
      (slot_step env i s).2.2 = true →
      motive i s (slot_step env i s).1 (slot_step env i s).2.1)
    (cont : ∀ i s t evs, i < rx → nm_ring_empty (s.rings i) = false →
      (slot_step env i s).2.2 = false →
      motive i (slot_step env i s).1 t evs →
      motive i s t ((slot_step env i s).2.1 ++ evs)) :
    ∀ fuel i s t evs, scan env rx fuel i s = some (t, evs) → motive i s t evs := by
  intro fuel
  induction fuel with
  | zero => intro i s t evs h; simp [scan] at h
  | succ n ih =>
    intro i s t evs h
    rw [scan] at h
    by_cases hi : i < rx
    · rw [if_pos hi] at h
      cases he : nm_ring_empty (s.rings i) with
      | true =>
        rw [he] at h
        simp only [if_true] at h
        exact next i s t evs hi he (ih _ _ _ _ h)
      | false =>
        rw [he] at h
        simp only [Bool.false_eq_true, if_false] at h
        cases hs : (slot_step env i s).2.2 with
        | true =>
          rw [hs] at h
          simp only [if_true, Option.some.injEq, Prod.mk.injEq] at h
          obtain ⟨h1, h2⟩ := h
          subst h1; subst h2
          exact stop i s hi he hs
        | false =>
          rw [hs] at h
          simp only [Bool.false_eq_true, if_false, Option.map_eq_some'] at h
          obtain ⟨q, hq, hq2⟩ := h
          simp only [Prod.mk.injEq] at hq2
          obtain ⟨h1, h2⟩ := hq2
          subst h1; subst h2
          exact cont i s q.1 q.2 hi he hs (ih _ _ _ _ hq)
    · rw [if_neg hi] at h
      simp only [Option.some.injEq, Prod.mk.injEq] at h
      obtain ⟨h1, h2⟩ := h
      subst h1; subst h2
      exact exit i s hi

/-! ## One loop iteration -/

theorem slot_step_rings {σ : Type} (env : RxEnv σ) (i : Nat) (s : RxState σ) :
    (slot_step env i s).1.rings = Function.update s.rings i (NETMAP_RING_NEXT (s.rings i)) := by
  unfold slot_step
  simp only
  split_ifs <;> rfl

theorem slot_step_inputs {σ : Type} (env : RxEnv σ) (i : Nat) (s : RxState σ) :
    inputs (slot_step env i s).2.1 =
      [(i, NETMAP_GET_BUF (s.rings i), NETMAP_SLOT_LEN (s.rings i))] := by
  unfold slot_step
  simp only
  split_ifs <;> rfl

theorem slot_step_rets {σ : Type} (env : RxEnv σ) (i : Nat) (s : RxState σ) :
    input_rets (slot_step env i s).2.1 =
      [(env.ether_input s.ext i (NETMAP_GET_BUF (s.rings i))
        (NETMAP_SLOT_LEN (s.rings i))).1] := by
  unfold slot_step
  simp only
  split_ifs <;> rfl

/-- An iteration that does not leave the loop saw no negative result from
`ether_input`, counted the packet, and did not reach the burst limit. -/
theorem slot_step_cont {σ : Type} (env : RxEnv σ) (i : Nat) (s : RxState σ)
    (h : (slot_step env i s).2.2 = false) :
    0 ≤ (env.ether_input s.ext i (NETMAP_GET_BUF (s.rings i))
        (NETMAP_SLOT_LEN (s.rings i))).1 ∧
      (slot_step env i s).1.pkts = s.pkts + 1 ∧ s.pkts + 1 ≠ env.burst := by
  unfold slot_step at h ⊢
  simp only at h ⊢
  split_ifs at h ⊢ with h1 h2 h3 <;> simp_all

/-- An iteration in which neither callback returned a negative value leaves
the loop exactly when the counter reaches the burst limit. -/
theorem slot_step_stop_nonneg {σ : Type} (env : RxEnv σ) (i : Nat) (s : RxState σ)
    (hin : ∀ r ∈ input_rets (slot_step env i s).2.1, 0 ≤ r)
    (hbr : ∀ r ∈ bridge_rets (slot_step env i s).2.1, 0 ≤ r)
    (h : (slot_step env i s).2.2 = true) : s.pkts + 1 = env.burst := by
  unfold slot_step at h hin hbr
  simp only at h hin hbr
  split_ifs at h hin hbr with h1 h2 h3
  · exact absurd (hbr _ (by simp [bridge_rets])) (not_le.mpr h2)
  · simpa using h
  · exact absurd (hin _ (by simp [input_rets])) (not_le.mpr h3)
  · simpa using h

theorem slot_step_bridges_nohost {σ : Type} (env : RxEnv σ) (i : Nat) (s : RxState σ)
    (h : env.nohostring ≠ 0) : bridges (slot_step env i s).2.1 = [] := by
  unfold slot_step
  simp only
  split_ifs with h1 <;> first | rfl | exact absurd h1.1 h

/-! ## Rings -/

theorem ring_ok_next (r : netmap_ring) (h : ring_ok r) : ring_ok (NETMAP_RING_NEXT r) := by
  unfold ring_ok NETMAP_RING_NEXT nm_ring_next at *
  simp only
  split_ifs <;> omega

theorem pending_empty (r : netmap_ring) (h : nm_ring_empty r = true) : pending r = 0 := by
  unfold nm_ring_empty at h
  unfold pending
  have : r.cur = r.tail := by simpa using h
  simp [this]

theorem pending_next (r : netmap_ring) (hok : ring_ok r) (h : nm_ring_empty r = false) :
    pending r = pending (NETMAP_RING_NEXT r) + 1 := by
  unfold nm_ring_empty at h
  have hne : r.cur ≠ r.tail := by simpa using h
  unfold ring_ok at hok
  unfold pending NETMAP_RING_NEXT nm_ring_next
  simp only
  split_ifs <;> omega

theorem pending_slots_empty (r : netmap_ring) (h : nm_ring_empty r = true) :
    pending_slots r = [] := by
  simp [pending_slots, pending_empty r h]

theorem pending_slots_next (r : netmap_ring) (hok : ring_ok r)
    (h : nm_ring_empty r = false) :
    pending_slots r =
      (NETMAP_GET_BUF r, NETMAP_SLOT_LEN r) :: pending_slots (NETMAP_RING_NEXT r) := by
  have hp := pending_next r hok h
  unfold pending_slots
  rw [hp, List.range_succ_eq_map, List.map_cons, List.map_map]
  congr 1
  · simp [NETMAP_GET_BUF, NETMAP_SLOT_LEN, Nat.mod_eq_of_lt hok.1]
  · apply List.map_congr_left
    intro k _
    have hk : (r.cur + (k + 1)) % r.num_slots =
        ((NETMAP_RING_NEXT r).cur + k) % (NETMAP_RING_NEXT r).num_slots := by
      unfold NETMAP_RING_NEXT nm_ring_next
      simp only
      split_ifs with hw
      · have : r.cur + (k + 1) = r.num_slots + k := by omega
        rw [this, Nat.add_mod_left, Nat.zero_add]
      · congr 1; omega
    simp only [Function.comp, hk]
    rfl

/-! ## Scan order -/

theorem scan_from_zero (rings : Nat → netmap_ring) (i : Nat) : scan_from rings i 0 = [] := by
  simp [scan_from]

theorem scan_from_succ (rings : Nat → netmap_ring) (i n : Nat) :
    scan_from rings i (n + 1) =
      (pending_slots (rings i)).map (fun p => (i, p.1, p.2)) ++ scan_from rings (i + 1) n := by
  simp [scan_from, List.range'_succ]

theorem scan_from_congr (rings rings2 : Nat → netmap_ring) (n : Nat) :
    ∀ i, (∀ j, i ≤ j → rings j = rings2 j) → scan_from rings i n = scan_from rings2 i n := by
  induction n with
  | zero => intro i _; simp [scan_from_zero]
  | succ n ih =>
    intro i h
    rw [scan_from_succ, scan_from_succ, h i (le_refl i),
      ih (i + 1) (fun j hj => h j (by omega))]

theorem scan_from_mem (rings : Nat → netmap_ring) (n : Nat) :
    ∀ i x, x ∈ scan_from rings i n → i ≤ x.1 ∧ x.1 < i + n := by
  induction n with
  | zero => intro i x h; simp [scan_from_zero] at h
  | succ n ih =>
    intro i x h
    rw [scan_from_succ, List.mem_append] at h
    rcases h with h | h
    · simp only [List.mem_map] at h
      obtain ⟨p, _, hp⟩ := h
      subst hp
      simp
    · have := ih (i + 1) x h
      omega

theorem scan_from_add (rings : Nat → netmap_ring) (m : Nat) :
    ∀ i n, scan_from rings i (n + m) = scan_from rings i n ++ scan_from rings (i + n) m := by
  intro i n
  induction n generalizing i with
  | zero => simp [scan_from_zero]
  | succ n ih =>
    have e : n + 1 + m = (n + m) + 1 := by omega
    rw [e, scan_from_succ, scan_from_succ, ih (i + 1), List.append_assoc]
    congr 3
    omega

/-- In a ring at its end the scan moves on to the next ring. -/
theorem scan_from_skip (rings : Nat → netmap_ring) (i rx : Nat) (hi : i < rx)
    (he : nm_ring_empty (rings i) = true) :
    scan_from rings i (rx - i) = scan_from rings (i + 1) (rx - (i + 1)) := by
  have e : rx - i = (rx - (i + 1)) + 1 := by omega
  rw [e, scan_from_succ, pending_slots_empty _ he]
  simp

/-- The slot at the cursor of a non-empty ring heads the scan order, and
advancing the cursor removes exactly that slot from it. -/
theorem scan_from_consume (rings : Nat → netmap_ring) (i rx : Nat) (hi : i < rx)
    (hok : ring_ok (rings i)) (he : nm_ring_empty (rings i) = false) :
    scan_from rings i (rx - i) =
      (i, NETMAP_GET_BUF (rings i), NETMAP_SLOT_LEN (rings i)) ::
        scan_from (Function.update rings i (NETMAP_RING_NEXT (rings i))) i (rx - i) := by
  have e : rx - i = (rx - (i + 1)) + 1 := by omega
  rw [e, scan_from_succ, scan_from_succ, pending_slots_next _ hok he]
  simp only [Function.update_same, List.map_cons, List.cons_append]
  congr 2
  apply scan_from_congr
  intro j hj
  rw [Function.update_noteq (by omega)]

/-! ## Properties of every run of the loop -/

/-- The slots handed to `ether_input` form an initial segment of the scan
order. -/
theorem scan_inputs_initial {σ : Type} (env : RxEnv σ) (rx : Nat) (fuel i : Nat)
    (s t : RxState σ) (evs : List RxCall)
    (h : scan env rx fuel i s = some (t, evs))
    (hok : ∀ j, i ≤ j → j < rx → ring_ok (s.rings j)) :
    inputs evs <+: scan_from s.rings i (rx - i) := by
  revert hok
  refine scan_ind env rx
    (fun i s _ evs => (∀ j, i ≤ j → j < rx → ring_ok (s.rings j)) →
      inputs evs <+: scan_from s.rings i (rx - i)) ?_ ?_ ?_ ?_ fuel i s t evs h
  · intro i s _ _
    exact List.nil_prefix
  · intro i s t evs hi he ih hok
    rw [scan_from_skip _ _ _ hi he]
    exact ih (fun j hj hj2 => hok j (by omega) hj2)
  · intro i s hi he _ hok
    rw [slot_step_inputs, scan_from_consume _ _ _ hi (hok i (le_refl i) hi) he]
    simp [List.prefix_cons_inj]
  · intro i s t evs hi he _ ih hok
    rw [inputs_append, slot_step_inputs, scan_from_consume _ _ _ hi (hok i (le_refl i) hi) he]
    simp only [List.singleton_append]
    rw [List.prefix_cons_inj]
    rw [slot_step_rings] at ih
    apply ih
    intro j hj hj2
    by_cases hji : j = i
    · subst hji
      rw [Function.update_same]
      exact ring_ok_next _ (hok j (le_refl j) hj2)
    · rw [Function.update_noteq hji]
      exact hok j hj hj2

theorem slots_of_ring_cons (j : Nat) (x : Nat × Nat × Nat) (l : List (Nat × Nat × Nat)) :
    slots_of_ring j (x :: l) = slots_of_ring j l + (if x.1 = j then 1 else 0) := by
  unfold slots_of_ring
  rw [List.countP_cons]
  simp

/-- Every ring ends advanced once for each of its slots handed to
`ether_input`, and is otherwise as it was. -/
theorem scan_rings {σ : Type} (env : RxEnv σ) (rx : Nat) (fuel i : Nat)
    (s t : RxState σ) (evs : List RxCall)
    (h : scan env rx fuel i s = some (t, evs)) (j : Nat) :
    t.rings j = NETMAP_RING_NEXT^[slots_of_ring j (inputs evs)] (s.rings j) := by
  refine scan_ind env rx
    (fun _ s t evs =>
      t.rings j = NETMAP_RING_NEXT^[slots_of_ring j (inputs evs)] (s.rings j))
    ?_ ?_ ?_ ?_ fuel i s t evs h
  · intro i s _
    simp [inputs, slots_of_ring]
  · intro i s t evs _ _ ih
    exact ih
  · intro i s _ _ _
    rw [slot_step_inputs, slot_step_rings, slots_of_ring_cons]
    by_cases hji : j = i
    · subst hji
      simp [slots_of_ring]
    · rw [Function.update_noteq hji]
      have : ¬ i = j := fun e => hji e.symm
      simp [slots_of_ring, this]
  · intro i s t evs _ _ _ ih
    rw [inputs_append, slot_step_inputs, List.singleton_append, slots_of_ring_cons, ih,
      slot_step_rings]
    by_cases hji : j = i
    · subst hji
      simp [Function.iterate_succ_apply]
    · rw [Function.update_noteq hji]
      have : ¬ i = j := fun e => hji e.symm
      simp [this]

/-- With a positive burst limit a run hands at most the remaining quota of
slots to `ether_input`. -/
theorem scan_inputs_le {σ : Type} (env : RxEnv σ) (rx : Nat) (fuel i : Nat)
    (s t : RxState σ) (evs : List RxCall)
    (h : scan env rx fuel i s = some (t, evs)) (hp : s.pkts < env.burst) :
    ((inputs evs).length : Int) ≤ env.burst - s.pkts := by
  revert hp
  refine scan_ind env rx
    (fun _ s _ evs => s.pkts < env.burst →
      ((inputs evs).length : Int) ≤ env.burst - s.pkts) ?_ ?_ ?_ ?_ fuel i s t evs h
  · intro i s _ hp
    simp only [inputs, List.length_nil, Nat.cast_zero]
    omega
  · intro i s t evs _ _ ih hp
    exact ih hp
  · intro i s _ _ _ hp
    rw [slot_step_inputs]
    simp only [List.length_singleton, Nat.cast_one]
    omega
  · intro i s t evs _ _ hc ih hp
    obtain ⟨_, h2, h3⟩ := slot_step_cont env i s hc
    rw [inputs_append, slot_step_inputs]
    have := ih (by rw [h2]; omega)
    rw [h2] at this
    simp only [List.singleton_append, List.length_cons, Nat.cast_add, Nat.cast_one]
    omega

/-- A run over well-formed rings in which no callback returned a negative
value hands `ether_input` exactly as many slots as the remaining quota and the
waiting slots allow. -/
theorem scan_inputs_length {σ : Type} (env : RxEnv σ) (rx : Nat) (fuel i : Nat)
    (s t : RxState σ) (evs : List RxCall)
    (h : scan env rx fuel i s = some (t, evs))
    (hin : ∀ r ∈ input_rets evs, 0 ≤ r)
    (hbr : ∀ r ∈ bridge_rets evs, 0 ≤ r)
    (hok : ∀ j, i ≤ j → j < rx → ring_ok (s.rings j))
    (hp : s.pkts < env.burst) :
    (inputs evs).length =
      min (env.burst - s.pkts).toNat (scan_from s.rings i (rx - i)).length := by
  revert hin hbr hok hp
  refine scan_ind env rx
    (fun i s _ evs => (∀ r ∈ input_rets evs, 0 ≤ r) → (∀ r ∈ bridge_rets evs, 0 ≤ r) →
      (∀ j, i ≤ j → j < rx → ring_ok (s.rings j)) → s.pkts < env.burst →
      (inputs evs).length =
        min (env.burst - s.pkts).toNat (scan_from s.rings i (rx - i)).length)
    ?_ ?_ ?_ ?_ fuel i s t evs h
  · intro i s hi _ _ _ _
    have : rx - i = 0 := by omega
    simp [this, scan_from_zero, inputs]
  · intro i s t evs hi he ih hin hbr hok hp
    rw [scan_from_skip _ _ _ hi he]
    exact ih hin hbr (fun j hj hj2 => hok j (by omega) hj2) hp
  · intro i s hi he hs hin hbr hok hp
    have hb := slot_step_stop_nonneg env i s hin hbr hs
    rw [slot_step_inputs, scan_from_consume _ _ _ hi (hok i (le_refl i) hi) he]
    have : (env.burst - s.pkts).toNat = 1 := by omega
    simp [this]
  · intro i s t evs hi he hc ih hin hbr hok hp
    obtain ⟨_, h2, h3⟩ := slot_step_cont env i s hc
    rw [inputs_append, slot_step_inputs, scan_from_consume _ _ _ hi (hok i (le_refl i) hi) he]
    have hok2 : ∀ j, i ≤ j → j < rx → ring_ok ((slot_step env i s).1.rings j) := by
      intro j hj hj2
      rw [slot_step_rings]
      by_cases hji : j = i
      · subst hji
        rw [Function.update_same]
        exact ring_ok_next _ (hok j (le_refl j) hj2)
      · rw [Function.update_noteq hji]
        exact hok j hj hj2
    have hin2 : ∀ r ∈ input_rets evs, 0 ≤ r := fun r hr =>
      hin r (by rw [input_rets_append]; exact List.mem_append_right _ hr)
    have hbr2 : ∀ r ∈ bridge_rets evs, 0 ≤ r := fun r hr =>
      hbr r (by rw [bridge_rets_append]; exact List.mem_append_right _ hr)
    have := ih hin2 hbr2 hok2 (by rw [h2]; omega)
    rw [h2, slot_step_rings] at this
    simp only [List.singleton_append, List.length_cons, this]
    have e : (env.burst - s.pkts).toNat = (env.burst - (s.pkts + 1)).toNat + 1 := by omega
    rw [e, Nat.succ_min_succ]

/-- A negative result of `ether_input` ends the run: it belongs to the last
slot handed over. -/
theorem scan_error_last {σ : Type} (env : RxEnv σ) (rx : Nat) (fuel i : Nat)
    (s t : RxState σ) (evs : List RxCall)
    (h : scan env rx fuel i s = some (t, evs)) :
    ∀ k r, (input_rets evs)[k]? = some r → r < 0 → k + 1 = (input_rets evs).length := by
  refine scan_ind env rx
    (fun _ _ _ evs => ∀ k r, (input_rets evs)[k]? = some r → r < 0 →
      k + 1 = (input_rets evs).length) ?_ ?_ ?_ ?_ fuel i s t evs h
  · intro i s _ k r hk
    simp [input_rets] at hk
  · intro i s t evs _ _ ih
    exact ih
  · intro i s _ _ _ k r hk _
    rw [slot_step_rets] at hk ⊢
    cases k with
    | zero => rfl
    | succ k => simp at hk
  · intro i s t evs _ _ hc ih k r hk hr
    obtain ⟨h1, _, _⟩ := slot_step_cont env i s hc
    rw [input_rets_append, slot_step_rets] at hk ⊢
    cases k with
    | zero =>
      simp only [List.singleton_append, List.getElem?_cons_zero, Option.some.injEq] at hk
      omega
    | succ k =>
      simp only [List.singleton_append, List.getElem?_cons_succ] at hk
      have := ih k r hk hr
      simp only [List.singleton_append, List.length_cons]
      omega

/-- With `nohostring` set a run never calls `ether_bridge`. -/
theorem scan_bridges_nohost {σ : Type} (env : RxEnv σ) (rx : Nat) (fuel i : Nat)
    (s t : RxState σ) (evs : List RxCall)
    (h : scan env rx fuel i s = some (t, evs)) (hn : env.nohostring ≠ 0) :
    bridges evs = [] := by
  refine scan_ind env rx (fun _ _ _ evs => bridges evs = []) ?_ ?_ ?_ ?_ fuel i s t evs h
  · intro i s _
    rfl
  · intro i s t evs _ _ ih
    exact ih
  · intro i s _ _ _
    exact slot_step_bridges_nohost env i s hn
  · intro i s t evs _ _ _ ih
    rw [bridges_append, slot_step_bridges_nohost env i s hn, ih]
    rfl

/-- Every slot handed to `ether_input` comes from a ring the loop ranges
over. -/
theorem scan_inputs_ring {σ : Type} (env : RxEnv σ) (rx : Nat) (fuel i : Nat)
    (s t : RxState σ) (evs : List RxCall)
    (h : scan env rx fuel i s = some (t, evs)) :
    ∀ x ∈ inputs evs, x.1 < rx := by
  refine scan_ind env rx (fun _ _ _ evs => ∀ x ∈ inputs evs, x.1 < rx)
    ?_ ?_ ?_ ?_ fuel i s t evs h
  · intro i s _ x hx
    simp [inputs] at hx
  · intro i s t evs _ _ ih
    exact ih
  · intro i s hi _ _ x hx
    rw [slot_step_inputs] at hx
    simp only [List.mem_singleton] at hx
    subst hx
    exact hi
  · intro i s t evs hi _ _ ih x hx
    rw [inputs_append, slot_step_inputs] at hx
    simp only [List.singleton_append, List.mem_cons] at hx
    rcases hx with hx | hx
    · subst hx
      exact hi
    · exact ih x hx

/-! ## Termination -/

/-- Over well-formed rings the loop reaches `done` within `scan_fuel`. -/
theorem scan_terminates {σ : Type} (env : RxEnv σ) (rx : Nat) :
    ∀ fuel i (s : RxState σ), (∀ j, i ≤ j → j < rx → ring_ok (s.rings j)) →
      (rx - i) + (scan_from s.rings i (rx - i)).length + 1 ≤ fuel →
      ∃ q, scan env rx fuel i s = some q := by
  intro fuel
  induction fuel with
  | zero => intro i s _ hf; omega
  | succ n ih =>
    intro i s hok hf
    rw [scan]
    by_cases hi : i < rx
    · rw [if_pos hi]
      cases he : nm_ring_empty (s.rings i) with
      | true =>
        simp only [if_true]
        apply ih
        · exact fun j hj hj2 => hok j (by omega) hj2
        · rw [scan_from_skip _ _ _ hi he] at hf
          omega
      | false =>
        simp only [Bool.false_eq_true, if_false]
        cases hs : (slot_step env i s).2.2 with
        | true => exact ⟨_, rfl⟩
        | false =>
          simp only [Bool.false_eq_true, if_false]
          have hok2 : ∀ j, i ≤ j → j < rx → ring_ok ((slot_step env i s).1.rings j) := by
            intro j hj hj2
            rw [slot_step_rings]
            by_cases hji : j = i
            · subst hji
              rw [Function.update_same]
              exact ring_ok_next _ (hok j (le_refl j) hj2)
            · rw [Function.update_noteq hji]
              exact hok j hj hj2
          have hf2 : (rx - i) + (scan_from (slot_step env i s).1.rings i (rx - i)).length + 1
              ≤ n := by
            rw [scan_from_consume _ _ _ hi (hok i (le_refl i) hi) he] at hf
            rw [slot_step_rings]
            simp only [List.length_cons] at hf
            omega
          obtain ⟨q, hq⟩ := ih i _ hok2 hf2
          exact ⟨_, by rw [hq]; rfl⟩
    · rw [if_neg hi]
      exact ⟨_, rfl⟩

/-- With a positive burst limit the loop reaches `done` whatever the rings
hold. -/
theorem scan_terminates_burst {σ : Type} (env : RxEnv σ) (rx : Nat) :
    ∀ fuel i (s : RxState σ), s.pkts < env.burst →
      (rx - i) + (env.burst - s.pkts).toNat + 1 ≤ fuel →
      ∃ q, scan env rx fuel i s = some q := by
  intro fuel
  induction fuel with
  | zero => intro i s _ hf; omega
  | succ n ih =>
    intro i s hp hf
    rw [scan]
    by_cases hi : i < rx
    · rw [if_pos hi]
      cases he : nm_ring_empty (s.rings i) with
      | true =>
        simp only [if_true]
        exact ih _ _ hp (by omega)
      | false =>
        simp only [Bool.false_eq_true, if_false]
        cases hs : (slot_step env i s).2.2 with
        | true => exact ⟨_, rfl⟩
        | false =>
          simp only [Bool.false_eq_true, if_false]
          obtain ⟨_, h2, h3⟩ := slot_step_cont env i s hs
          obtain ⟨q, hq⟩ := ih i (slot_step env i s).1 (by rw [h2]; omega) (by rw [h2]; omega)
          exact ⟨_, by rw [hq]; rfl⟩
    · rw [if_neg hi]
      exact ⟨_, rfl⟩

/-! ## The dispatcher `netmap_read` -/

theorem inputs_txsync (evs : List RxCall) :
    inputs (evs ++ [RxCall.if_netmap_txsync]) = inputs evs := by
  rw [inputs_append]; simp [inputs]

theorem input_rets_txsync (evs : List RxCall) :
    input_rets (evs ++ [RxCall.if_netmap_txsync]) = input_rets evs := by
  rw [input_rets_append]; simp [input_rets]

theorem bridge_rets_txsync (evs : List RxCall) :
    bridge_rets (evs ++ [RxCall.if_netmap_txsync]) = bridge_rets evs := by
  rw [bridge_rets_append]; simp [bridge_rets]

theorem bridges_txsync (evs : List RxCall) :
    bridges (evs ++ [RxCall.if_netmap_txsync]) = bridges evs := by
  rw [bridges_append]; simp [bridges]

theorem take_min_length {α : Type} (n : Nat) (l : List α) :
    l.take (min n l.length) = l.take n := by
  rcases Nat.le_total n l.length with h | h
  · rw [Nat.min_eq_left h]
  · rw [Nat.min_eq_right h, List.take_length, List.take_of_length_le h]

theorem slots_of_ring_eq_zero (j : Nat) (l : List (Nat × Nat × Nat))
    (h : ∀ x ∈ l, x.1 ≠ j) : slots_of_ring j l = 0 := by
  unfold slots_of_ring
  rw [List.countP_eq_zero]
  intro x hx
  simpa using h x hx

/-- Claim C1 as stated fails: with the burst limit 0 a dispatch over a ring
holding two slots calls `ether_input` twice, more often than the limit. -/
theorem netmap_read_burst_zero_exceeds :
    ∃ res, netmap_read (const_env 0 1 0) 4 hw_handle one_ring () = some res ∧
      ¬ ((inputs res.calls).length : Int) ≤ (const_env 0 1 0).burst :=
  ⟨_, rfl, by decide⟩

/-- Claim C1, amended: for every burst limit of at least 1, every ring
contents and every behaviour of the callbacks, a dispatch returns and has
called `ether_input` at most `burst` times. -/
theorem netmap_read_burst_bound {σ : Type} (env : RxEnv σ) (nmif : nm_if)
    (ifp : netmap_if) (ext : σ) (hb : 1 ≤ env.burst) (fuel : Nat)
    (hf : scanned_rings env.nohostring nmif ifp + env.burst.toNat + 1 ≤ fuel) :
    ∃ res, netmap_read env fuel nmif ifp ext = some res ∧
      ((inputs res.calls).length : Int) ≤ env.burst := by
  obtain ⟨q, hq⟩ := scan_terminates_burst env (scanned_rings env.nohostring nmif ifp) fuel 0
    ⟨ifp.rxring, ext, 0⟩ (by simpa using hb) (by simpa using hf)
  have hle := scan_inputs_le env _ fuel 0 _ q.1 q.2 hq (by simpa using hb)
  refine ⟨_, by rw [netmap_read, hq]; rfl, ?_⟩
  simp only [inputs_txsync]
  simpa using hle

/-- Claim C1, amended, at burst limit 4 over rings holding eight slots. -/
theorem netmap_read_burst_bound_witness :
    (1 : Int) ≤ (const_env 4 1 0).burst ∧
      scanned_rings (const_env 4 1 0).nohostring hw_handle two_rings +
        (const_env 4 1 0).burst.toNat + 1 ≤ 7 ∧
      ∃ res, netmap_read (const_env 4 1 0) 7 hw_handle two_rings () = some res ∧
        ((inputs res.calls).length : Int) ≤ (const_env 4 1 0).burst :=
  ⟨by decide, by decide,
    netmap_read_burst_bound (const_env 4 1 0) hw_handle two_rings () (by decide) 7
      (by decide)⟩

/-- A dispatch over well-formed rings returns, and what it returns comes from
a completed run of the loop started at ring 0. -/
theorem netmap_read_returns {σ : Type} (env : RxEnv σ) (nmif : nm_if)
    (ifp : netmap_if) (ext : σ)
    (hok : ∀ j, j < scanned_rings env.nohostring nmif ifp → ring_ok (ifp.rxring j))
    (fuel : Nat) (hf : scan_fuel ifp.rxring (scanned_rings env.nohostring nmif ifp) ≤ fuel) :
    ∃ t evs, scan env (scanned_rings env.nohostring nmif ifp) fuel 0 ⟨ifp.rxring, ext, 0⟩ =
        some (t, evs) ∧
      netmap_read env fuel nmif ifp ext =
        some ⟨t.rings, env.if_netmap_txsync t.ext, evs ++ [RxCall.if_netmap_txsync]⟩ := by
  obtain ⟨q, hq⟩ := scan_terminates env (scanned_rings env.nohostring nmif ifp) fuel 0
    ⟨ifp.rxring, ext, 0⟩ (fun j _ hj => hok j hj)
    (by simpa [scan_fuel, scan_order] using hf)
  exact ⟨q.1, q.2, hq, by rw [netmap_read, hq]; rfl⟩

/-- Claim C2: with a burst limit `B ≥ 1`, a dispatch over well-formed rings
returns, and if during it neither `ether_input` nor `ether_bridge` returned a
negative value, then it has handed to `ether_input` exactly the first `B`
slots of the scan order (all of them when fewer wait), that is `min B total`
slots, ring by ring and in arrival order; every ring has been advanced once
per slot taken from it, and a ring that lies behind `B` or more waiting slots
is left as it was. -/
theorem netmap_read_quota {σ : Type} (env : RxEnv σ) (nmif : nm_if)
    (ifp : netmap_if) (ext : σ) (hb : 1 ≤ env.burst)
    (hok : ∀ j, j < scanned_rings env.nohostring nmif ifp → ring_ok (ifp.rxring j))
    (fuel : Nat) (hf : scan_fuel ifp.rxring (scanned_rings env.nohostring nmif ifp) ≤ fuel) :
    ∃ res, netmap_read env fuel nmif ifp ext = some res ∧
      ((∀ r ∈ input_rets res.calls, 0 ≤ r) → (∀ r ∈ bridge_rets res.calls, 0 ≤ r) →
        inputs res.calls =
          (scan_order ifp.rxring (scanned_rings env.nohostring nmif ifp)).take env.burst.toNat ∧
        (inputs res.calls).length =
          min env.burst.toNat
            (scan_order ifp.rxring (scanned_rings env.nohostring nmif ifp)).length ∧
        (∀ j, res.rings j =
          NETMAP_RING_NEXT^[slots_of_ring j (inputs res.calls)] (ifp.rxring j)) ∧
        (∀ j, env.burst.toNat ≤ (scan_order ifp.rxring j).length →
          res.rings j = ifp.rxring j)) := by
  obtain ⟨t, evs, hs, hr⟩ := netmap_read_returns env nmif ifp ext hok fuel hf
  refine ⟨_, hr, ?_⟩
  simp only [input_rets_txsync, bridge_rets_txsync, inputs_txsync]
  intro hin hbr
  have hpre := scan_inputs_initial env _ fuel 0 _ t evs hs (fun j _ hj => hok j hj)
  have hlen := scan_inputs_length env _ fuel 0 _ t evs hs hin hbr
    (fun j _ hj => hok j hj) (by simpa using hb)
  have hrings := scan_rings env _ fuel 0 _ t evs hs
  have hidx := scan_inputs_ring env _ fuel 0 _ t evs hs
  simp only [Nat.sub_zero, sub_zero] at hpre hlen
  have htake : inputs evs =
      (scan_order ifp.rxring (scanned_rings env.nohostring nmif ifp)).take env.burst.toNat := by
    rw [List.prefix_iff_eq_take] at hpre
    rw [hpre, hlen]
    exact take_min_length _ _
  refine ⟨htake, hlen, hrings, ?_⟩
  intro j hj
  have h0 : slots_of_ring j (inputs evs) = 0 := by
    apply slots_of_ring_eq_zero
    intro x hx
    by_cases hjr : j ≤ scanned_rings env.nohostring nmif ifp
    · have hsplit : scan_order ifp.rxring (scanned_rings env.nohostring nmif ifp) =
          scan_order ifp.rxring j ++
            scan_from ifp.rxring j (scanned_rings env.nohostring nmif ifp - j) := by
        unfold scan_order
        have := scan_from_add ifp.rxring (scanned_rings env.nohostring nmif ifp - j) 0 j
        rw [Nat.zero_add, Nat.add_sub_cancel' hjr] at this
        exact this
      rw [htake, hsplit, List.take_append_of_le_length hj] at hx
      have := scan_from_mem ifp.rxring j 0 x (List.mem_of_mem_take hx)
      omega
    · have := hidx x hx
      omega
  have := hrings j
  rw [h0] at this
  simpa using this

/-- Claim C2 at its scenario: burst limit 4, ring 0 holds six slots, ring 1
holds two, host ring disabled, `ether_input` returns 0.  Exactly four slots
are consumed, all from ring 0 and in arrival order; ring 1 is untouched. -/
theorem netmap_read_quota_witness :
    (1 : Int) ≤ (const_env 4 1 0).burst ∧
      (∀ j, j < scanned_rings (const_env 4 1 0).nohostring hw_handle two_rings →
        ring_ok (two_rings.rxring j)) ∧
      scan_fuel two_rings.rxring (scanned_rings (const_env 4 1 0).nohostring hw_handle two_rings)
        ≤ 11 ∧
      ∃ res, netmap_read (const_env 4 1 0) 11 hw_handle two_rings () = some res ∧
        (∀ r ∈ input_rets res.calls, 0 ≤ r) ∧
        (∀ r ∈ bridge_rets res.calls, 0 ≤ r) ∧
        inputs res.calls = [(0, 100, 60), (0, 101, 60), (0, 102, 60), (0, 103, 60)] ∧
        (inputs res.calls).length = 4 ∧
        (res.rings 0).cur = 4 ∧
        res.rings 1 = two_rings.rxring 1 := by
  have hok : ∀ j, j < scanned_rings (const_env 4 1 0).nohostring hw_handle two_rings →
      ring_ok (two_rings.rxring j) := by decide
  have hfuel : scan_fuel two_rings.rxring
      (scanned_rings (const_env 4 1 0).nohostring hw_handle two_rings) ≤ 11 := by decide
  refine ⟨by decide, hok, hfuel, ?_⟩
  obtain ⟨res, h1, hq⟩ :=
    netmap_read_quota (const_env 4 1 0) hw_handle two_rings () (by decide) hok 11 hfuel
  have hin : ∀ r ∈ input_rets res.calls, 0 ≤ r := by
    have e : netmap_read (const_env 4 1 0) 11 hw_handle two_rings () = some _ := rfl
    rw [e] at h1
    cases h1
    decide
  have hbr : ∀ r ∈ bridge_rets res.calls, 0 ≤ r := by
    have e : netmap_read (const_env 4 1 0) 11 hw_handle two_rings () = some _ := rfl
    rw [e] at h1
    cases h1
    decide
  obtain ⟨h2, _, h4, h5⟩ := hq hin hbr
  have e : (scan_order two_rings.rxring
      (scanned_rings (const_env 4 1 0).nohostring hw_handle two_rings)).take
        (const_env 4 1 0).burst.toNat =
      [(0, 100, 60), (0, 101, 60), (0, 102, 60), (0, 103, 60)] := by decide
  rw [e] at h2
  refine ⟨res, h1, hin, hbr, h2, by rw [h2]; rfl, ?_, h5 1 (by decide)⟩
  rw [h4 0, h2]
  rfl

/-- Claim C3: in a dispatch over well-formed rings, if the `k`-th call of
`ether_input` (counting from 0) returns a negative value, then the slots
handed to `ether_input` are exactly the first `k + 1` slots of the scan order,
so nothing after slot `k` is visited, and every ring has been advanced once
for each of its slots among those `k + 1`, slot `k` included, and no
further. -/
theorem netmap_read_error_stops {σ : Type} (env : RxEnv σ) (nmif : nm_if)
    (ifp : netmap_if) (ext : σ)
    (hok : ∀ j, j < scanned_rings env.nohostring nmif ifp → ring_ok (ifp.rxring j))
    (fuel : Nat) (hf : scan_fuel ifp.rxring (scanned_rings env.nohostring nmif ifp) ≤ fuel) :
    ∃ res, netmap_read env fuel nmif ifp ext = some res ∧
      ∀ k r, (input_rets res.calls)[k]? = some r → r < 0 →
        inputs res.calls =
          (scan_order ifp.rxring (scanned_rings env.nohostring nmif ifp)).take (k + 1) ∧
        (inputs res.calls).length = k + 1 ∧
        ∀ j, res.rings j =
          NETMAP_RING_NEXT^[slots_of_ring j
            ((scan_order ifp.rxring (scanned_rings env.nohostring nmif ifp)).take (k + 1))]
            (ifp.rxring j) := by
  obtain ⟨t, evs, hs, hr⟩ := netmap_read_returns env nmif ifp ext hok fuel hf
  have hpre := scan_inputs_initial env _ fuel 0 _ t evs hs (fun j _ hj => hok j hj)
  have hlast := scan_error_last env _ fuel 0 _ t evs hs
  have hrings := scan_rings env _ fuel 0 _ t evs hs
  simp only [Nat.sub_zero] at hpre
  rw [List.prefix_iff_eq_take] at hpre
  refine ⟨_, hr, ?_⟩
  intro k r hk hr0
  simp only [input_rets_txsync, inputs_txsync] at hk ⊢
  have hl : (inputs evs).length = k + 1 := by
    rw [← input_rets_length]
    exact (hlast k r hk hr0).symm
  have htake : inputs evs =
      (scan_order ifp.rxring (scanned_rings env.nohostring nmif ifp)).take (k + 1) := by
    rw [← hl]
    exact hpre
  refine ⟨htake, hl, ?_⟩
  intro j
  rw [← htake]
  exact hrings j

/-- Claim C3 on a run where the third call of `ether_input` fails: ring 0
holds six slots and ring 1 two, the burst limit is 10.  Three slots of ring 0
are visited, its cursor stands at 3, and ring 1 is untouched. -/
theorem netmap_read_error_stops_witness :
    (∀ j, j < scanned_rings (third_fails_env 10 1).nohostring hw_handle two_rings →
        ring_ok (two_rings.rxring j)) ∧
      scan_fuel two_rings.rxring
        (scanned_rings (third_fails_env 10 1).nohostring hw_handle two_rings) ≤ 11 ∧
      ∃ res, netmap_read (third_fails_env 10 1) 11 hw_handle two_rings 0 = some res ∧
        (input_rets res.calls)[2]? = some (-1) ∧
        inputs res.calls = [(0, 100, 60), (0, 101, 60), (0, 102, 60)] ∧
        (res.rings 0).cur = 3 ∧
        (res.rings 1).cur = (two_rings.rxring 1).cur := by
  have hok : ∀ j, j < scanned_rings (third_fails_env 10 1).nohostring hw_handle two_rings →
      ring_ok (two_rings.rxring j) := by decide
  have hfuel : scan_fuel two_rings.rxring
      (scanned_rings (third_fails_env 10 1).nohostring hw_handle two_rings) ≤ 11 := by decide
  refine ⟨hok, hfuel, ?_⟩
  obtain ⟨res, h1, h2⟩ :=
    netmap_read_error_stops (third_fails_env 10 1) hw_handle two_rings 0 hok 11 hfuel
  have hr : (input_rets res.calls)[2]? = some (-1) := by
    have e : netmap_read (third_fails_env 10 1) 11 hw_handle two_rings 0 = some _ := rfl
    rw [e] at h1
    cases h1
    rfl
  obtain ⟨h3, _, h5⟩ := h2 2 (-1) hr (by decide)
  have e : (scan_order two_rings.rxring
      (scanned_rings (third_fails_env 10 1).nohostring hw_handle two_rings)).take (2 + 1) =
      [(0, 100, 60), (0, 101, 60), (0, 102, 60)] := by decide
  rw [e] at h3 h5
  refine ⟨res, h1, hr, h3, ?_, ?_⟩
  · rw [h5 0]; rfl
  · rw [h5 1]; rfl

/-- Claim C4 fails on the code: on a virtual-switch port with host-ring
participation enabled (`nohostring = 0`), a slot for which `ether_input`
returns 1 is handed to `ether_bridge`. -/
theorem netmap_read_vale_calls_bridge :
    vale_handle.nm_if_vale ≠ 0 ∧
      ∃ res, netmap_read (const_env 4 0 1) 5 vale_handle one_ring () = some res ∧
        res.calls = [RxCall.ether_input 0 100 60 1, RxCall.ether_bridge 0 100 60 0,
          RxCall.ether_input 0 101 60 1, RxCall.ether_bridge 0 101 60 0,
          RxCall.if_netmap_txsync] :=
  ⟨by decide, _, rfl, by decide⟩

/-- Without host-ring participation (`nohostring` set, or a virtual-switch
port) the loop never ranges beyond the hardware rings, and it ranges over
exactly those when their count fits an `int`. -/
theorem scanned_rings_hw (nohostring : Int) (nmif : nm_if) (ifp : netmap_if)
    (h : nohostring ≠ 0 ∨ nmif.nm_if_vale ≠ 0) :
    scanned_rings nohostring nmif ifp ≤ ifp.ni_rx_rings ∧
      (ifp.ni_rx_rings < 2147483648 →
        rx_rings nohostring nmif ifp = (ifp.ni_rx_rings : Int) ∧
        scanned_rings nohostring nmif ifp = ifp.ni_rx_rings) := by
  have hc : ¬ (nohostring = 0 ∧ nmif.nm_if_vale = 0) := by
    intro hc
    rcases h with h | h
    · exact h hc.1
    · exact h hc.2
  unfold scanned_rings rx_rings int_of_uint32
  rw [if_neg hc]
  constructor
  · split_ifs <;> omega
  · intro hb
    split_ifs <;> omega

/-- With a ring count of `2^32 - 1` the `int rx_rings` is -1 (0 after the
increment for the host ring): the dispatch hands nothing to `ether_input` and
only asks for the transmit sync. -/
theorem netmap_read_huge_count :
    rx_rings 1 hw_handle huge_count = -1 ∧ rx_rings 0 hw_handle huge_count = 0 ∧
      (∃ res, netmap_read (const_env 4 1 0) 1 hw_handle huge_count () = some res ∧
        res.calls = [RxCall.if_netmap_txsync]) ∧
      (∃ res, netmap_read (const_env 4 0 0) 1 hw_handle huge_count () = some res ∧
        res.calls = [RxCall.if_netmap_txsync]) :=
  ⟨by decide, by decide, ⟨_, rfl, by decide⟩, ⟨_, rfl, by decide⟩⟩

/-- What a dispatch without host-ring participation leaves alone: every slot
handed to `ether_input` comes from a hardware ring, and the host-stack ring
(index `ni_rx_rings`) and everything behind it is as it was. -/
theorem netmap_read_hw_only {σ : Type} (env : RxEnv σ) (nmif : nm_if)
    (ifp : netmap_if) (ext : σ) (hv : env.nohostring ≠ 0 ∨ nmif.nm_if_vale ≠ 0)
    (fuel : Nat) (res : RxResult σ) (h : netmap_read env fuel nmif ifp ext = some res) :
    (∀ x ∈ inputs res.calls, x.1 < ifp.ni_rx_rings) ∧
      (∀ j, ifp.ni_rx_rings ≤ j → res.rings j = ifp.rxring j) := by
  have hle := (scanned_rings_hw env.nohostring nmif ifp hv).1
  unfold netmap_read at h
  rw [Option.map_eq_some'] at h
  obtain ⟨q, hq, hres⟩ := h
  subst hres
  have hidx := scan_inputs_ring env _ fuel 0 _ q.1 q.2 hq
  have hrings := scan_rings env _ fuel 0 _ q.1 q.2 hq
  simp only [inputs_txsync]
  refine ⟨fun x hx => lt_of_lt_of_le (hidx x hx) hle, ?_⟩
  intro j hj
  rw [hrings j, slots_of_ring_eq_zero]
  · rfl
  · intro x hx
    have := hidx x hx
    omega

/-- Claim C5: with `nohostring` set, in either interface mode and whatever
the callbacks return, the loop ranges over exactly the `ni_rx_rings` hardware
rings (for every ring count that fits the `int rx_rings`, and never beyond
them otherwise); whenever a dispatch returns it has made no call of
`ether_bridge`, every slot it handed to `ether_input` comes from a ring below
`ni_rx_rings`, and the host-stack ring (index `ni_rx_rings`) and everything
behind it is left as it was; and over well-formed hardware rings the dispatch
does return. -/
theorem netmap_read_nohostring {σ : Type} (env : RxEnv σ) (nmif : nm_if)
    (ifp : netmap_if) (ext : σ) (hn : env.nohostring ≠ 0) :
    (ifp.ni_rx_rings < 2147483648 →
        rx_rings env.nohostring nmif ifp = (ifp.ni_rx_rings : Int) ∧
        scanned_rings env.nohostring nmif ifp = ifp.ni_rx_rings) ∧
      scanned_rings env.nohostring nmif ifp ≤ ifp.ni_rx_rings ∧
      (∀ fuel res, netmap_read env fuel nmif ifp ext = some res →
        bridges res.calls = [] ∧
        (∀ x ∈ inputs res.calls, x.1 < ifp.ni_rx_rings) ∧
        (∀ j, ifp.ni_rx_rings ≤ j → res.rings j = ifp.rxring j)) ∧
      ((∀ j, j < ifp.ni_rx_rings → ring_ok (ifp.rxring j)) →
        ∀ fuel, scan_fuel ifp.rxring (scanned_rings env.nohostring nmif ifp) ≤ fuel →
          ∃ res, netmap_read env fuel nmif ifp ext = some res) := by
  obtain ⟨hle, heq⟩ := scanned_rings_hw env.nohostring nmif ifp (Or.inl hn)
  refine ⟨heq, hle, ?_, ?_⟩
  · intro fuel res h
    refine ⟨?_, netmap_read_hw_only env nmif ifp ext (Or.inl hn) fuel res h⟩
    unfold netmap_read at h
    rw [Option.map_eq_some'] at h
    obtain ⟨q, hq, hres⟩ := h
    subst hres
    have hbr := scan_bridges_nohost env _ fuel 0 _ q.1 q.2 hq hn
    simpa only [bridges_txsync] using hbr
  · intro hok fuel hf
    obtain ⟨t, evs, _, hr⟩ := netmap_read_returns env nmif ifp ext
      (fun j hj => hok j (lt_of_lt_of_le hj hle)) fuel hf
    exact ⟨_, hr⟩

/-- Claim C5 on a hardware interface whose `ether_input` always asks for the
bridge (returns 1): the loop ranges over the two hardware rings, the dispatch
returns, no bridge call was made and only rings 0 and 1 were read. -/
theorem netmap_read_nohostring_witness :
    (const_env 4 1 1).nohostring ≠ 0 ∧
      two_rings.ni_rx_rings < 2147483648 ∧
      rx_rings (const_env 4 1 1).nohostring hw_handle two_rings = 2 ∧
      scanned_rings (const_env 4 1 1).nohostring hw_handle two_rings =
        two_rings.ni_rx_rings ∧
      (∀ j, j < two_rings.ni_rx_rings → ring_ok (two_rings.rxring j)) ∧
      scan_fuel two_rings.rxring
        (scanned_rings (const_env 4 1 1).nohostring hw_handle two_rings) ≤ 11 ∧
      ∃ res, netmap_read (const_env 4 1 1) 11 hw_handle two_rings () = some res ∧
        input_rets res.calls = [1, 1, 1, 1] ∧
        bridges res.calls = [] ∧
        (∀ x ∈ inputs res.calls, x.1 < two_rings.ni_rx_rings) ∧
        (∀ j, two_rings.ni_rx_rings ≤ j → res.rings j = two_rings.rxring j) := by
  have hn : (const_env 4 1 1).nohostring ≠ 0 := by decide
  have hb : two_rings.ni_rx_rings < 2147483648 := by decide
  have hok : ∀ j, j < two_rings.ni_rx_rings → ring_ok (two_rings.rxring j) := by decide
  have hfuel : scan_fuel two_rings.rxring
      (scanned_rings (const_env 4 1 1).nohostring hw_handle two_rings) ≤ 11 := by decide
  obtain ⟨h1, _, h2, h3⟩ :=
    netmap_read_nohostring (const_env 4 1 1) hw_handle two_rings () hn
  obtain ⟨res, hres⟩ := h3 hok 11 hfuel
  have hrets : input_rets res.calls = [1, 1, 1, 1] := by
    have e : netmap_read (const_env 4 1 1) 11 hw_handle two_rings () = some _ := rfl
    rw [e] at hres
    cases hres
    rfl
  exact ⟨hn, hb, (h1 hb).1, (h1 hb).2, hok, hfuel, res, hres, hrets, h2 11 res hres⟩

/-! ## The lifecycle: `netmap_close` -/

theorem vale_cmd_no_release {W : Type} (os : OS W) (name : List Char) (cmd : nr_cmd_t)
    (w : W) :
    (∀ a l r, SysCall.munmap a l r ∉ (netmap_vale_cmd os name cmd w).2.2) ∧
      (∀ e r, SysCall.event_del e r ∉ (netmap_vale_cmd os name cmd w).2.2) ∧
      (∀ e, SysCall.event_free e ∉ (netmap_vale_cmd os name cmd w).2.2) ∧
      (∀ l f r, SysCall.mmap l f r ∉ (netmap_vale_cmd os name cmd w).2.2) := by
  unfold netmap_vale_cmd
  simp only
  split_ifs <;> simp

theorem close_fd_no_release {W : Type} (os : OS W) (h : nm_if) (w : W) :
    (∀ a l r, SysCall.munmap a l r ∉ (close_fd os h w).trace) ∧
      (∀ e r, SysCall.event_del e r ∉ (close_fd os h w).trace) ∧
      (∀ e, SysCall.event_free e ∉ (close_fd os h w).trace) ∧
      (∀ l f r, SysCall.mmap l f r ∉ (close_fd os h w).trace) := by
  have hv := vale_cmd_no_release os h.nm_if_name nr_cmd_t.NETMAP_BDG_DETACH
    (os.sys_close w h.nm_if_fd).2
  unfold close_fd netmap_vale_detach
  simp only
  split_ifs <;> simp [hv]

/-- The last part of `netmap_close` either succeeds and leaves the descriptor
at -1, or fails on the descriptor close and leaves the handle as it was. -/
theorem close_fd_ret {W : Type} (os : OS W) (h : nm_if) (w : W) :
    ((close_fd os h w).ret = 0 ∧ (close_fd os h w).nmif = { h with nm_if_fd := -1 }) ∨
      ((close_fd os h w).ret = -1 ∧ (close_fd os h w).nmif = h ∧ h.nm_if_fd ≠ -1 ∧
        (close_fd os h w).trace = [SysCall.sys_close h.nm_if_fd (-1)]) := by
  unfold close_fd
  simp only
  split_ifs with h1 h2 h3
  · left
    refine ⟨rfl, ?_⟩
    cases h
    simp_all
  · right
    exact ⟨rfl, rfl, h1, by rw [h2]⟩
  · left; exact ⟨rfl, rfl⟩
  · left; exact ⟨rfl, rfl⟩

theorem close_fd_closed {W : Type} (os : OS W) (h : nm_if) (w : W)
    (hfd : h.nm_if_fd = -1) : close_fd os h w = ⟨0, h, w, []⟩ := by
  unfold close_fd
  rw [if_pos hfd]

theorem close_event_none {W : Type} (os : OS W) (h : nm_if) (w : W)
    (hev : h.nm_if_ev_read = NULL) : close_event os h w = (h, w, []) := by
  unfold close_event
  rw [if_neg (by simp [hev])]

theorem close_unmap_none {W : Type} (os : OS W) (h : nm_if) (w : W)
    (hm : ¬ (h.nm_if_mem ≠ NULL ∧ h.nm_if_memsize > 0)) :
    close_unmap os h w = (h, w, []) := by
  unfold close_unmap
  rw [if_neg hm]

/-- After the first part of `netmap_close` the event is absent; the other
fields are as before. -/
theorem close_event_handle {W : Type} (os : OS W) (h : nm_if) (w : W) :
    (close_event os h w).1 = { h with nm_if_ev_read := NULL } := by
  unfold close_event
  split_ifs with h1
  · rfl
  · cases h
    simp_all

/-- After the second part of `netmap_close` nothing is mapped any more as far
as the handle tells: the pointer is `NULL` or the size is 0. -/
theorem close_unmap_handle {W : Type} (os : OS W) (h : nm_if) (w : W) :
    ((close_unmap os h w).1 = { h with nm_if_mem := NULL, nm_if_memsize := 0 } ∧
        h.nm_if_mem ≠ NULL ∧ h.nm_if_memsize > 0) ∨
      ((close_unmap os h w).1 = h ∧ (close_unmap os h w).2.2 = [] ∧
        ¬ (h.nm_if_mem ≠ NULL ∧ h.nm_if_memsize > 0)) := by
  unfold close_unmap
  split_ifs with h1
  · left; exact ⟨rfl, h1⟩
  · right; exact ⟨rfl, rfl, h1⟩

/-- What `netmap_close` leaves in the handle and returns: the event is
absent; a mapped region (pointer not `NULL`, size positive) has been reset to
`NULL` and 0, anything else is kept; the call returns 0 with the descriptor at
-1, or -1 after a failed descriptor close with the descriptor kept. -/
theorem netmap_close_handle {W : Type} (os : OS W) (h : nm_if) (w : W) :
    (netmap_close os h w).nmif.nm_if_ev_read = NULL ∧
      ((h.nm_if_mem ≠ NULL ∧ h.nm_if_memsize > 0 ∧
          (netmap_close os h w).nmif.nm_if_mem = NULL ∧
          (netmap_close os h w).nmif.nm_if_memsize = 0) ∨
        (¬ (h.nm_if_mem ≠ NULL ∧ h.nm_if_memsize > 0) ∧
          (netmap_close os h w).nmif.nm_if_mem = h.nm_if_mem ∧
          (netmap_close os h w).nmif.nm_if_memsize = h.nm_if_memsize)) ∧
      (((netmap_close os h w).ret = 0 ∧ (netmap_close os h w).nmif.nm_if_fd = -1) ∨
        ((netmap_close os h w).ret = -1 ∧
          (netmap_close os h w).nmif.nm_if_fd = h.nm_if_fd ∧ h.nm_if_fd ≠ -1 ∧
          SysCall.sys_close h.nm_if_fd (-1) ∈ (netmap_close os h w).trace)) ∧
      (netmap_close os h w).nmif.nm_if_vale = h.nm_if_vale ∧
      (netmap_close os h w).nmif.nm_if_name = h.nm_if_name := by
  unfold netmap_close
  simp only
  have he := close_event_handle os h w
  rcases close_unmap_handle os (close_event os h w).1 (close_event os h w).2.1 with
    ⟨hu, hu1, hu2⟩ | ⟨hu, _, hu2⟩ <;>
  rcases close_fd_ret os (close_unmap os (close_event os h w).1 (close_event os h w).2.1).1
      (close_unmap os (close_event os h w).1 (close_event os h w).2.1).2.1 with
    ⟨hr, hc⟩ | ⟨hr, hc, hc1, hc2⟩ <;>
  · rw [hc, hr, hu, he] at *
    simp only [he] at hu2
    simp_all

/-- On a handle with no event, nothing mapped and the descriptor at -1,
`netmap_close` makes no call, changes nothing and returns 0. -/
theorem netmap_close_noop {W : Type} (os : OS W) (h : nm_if) (w : W)
    (hev : h.nm_if_ev_read = NULL)
    (hm : ¬ (h.nm_if_mem ≠ NULL ∧ h.nm_if_memsize > 0))
    (hfd : h.nm_if_fd = -1) : netmap_close os h w = ⟨0, h, w, []⟩ := by
  unfold netmap_close
  simp only
  rw [close_event_none os h w hev]
  simp only
  rw [close_unmap_none os h w hm]
  simp only
  rw [close_fd_closed os h w hfd]
  rfl

/-- On a handle with no event and nothing mapped, `netmap_close` goes
straight to the descriptor. -/
theorem netmap_close_released {W : Type} (os : OS W) (h : nm_if) (w : W)
    (hev : h.nm_if_ev_read = NULL)
    (hm : ¬ (h.nm_if_mem ≠ NULL ∧ h.nm_if_memsize > 0)) :
    netmap_close os h w = close_fd os h w := by
  unfold netmap_close
  simp only
  rw [close_event_none os h w hev]
  simp only
  rw [close_unmap_none os h w hm]
  rfl

theorem netmap_close_no_mmap {W : Type} (os : OS W) (h : nm_if) (w : W) :
    ∀ l f r, SysCall.mmap l f r ∉ (netmap_close os h w).trace := by
  intro l f r
  unfold netmap_close
  simp only [List.mem_append, not_or]
  refine ⟨⟨?_, ?_⟩, (close_fd_no_release os _ _).2.2.2 l f r⟩
  · unfold close_event
    split_ifs <;> simp
  · unfold close_unmap
    split_ifs <;> simp

/-- Claim C6 as stated fails: when the descriptor close fails, the first
`netmap_close` returns -1, and so does the second, which issues the
descriptor close a second time. -/
theorem netmap_close_failure_repeats :
    (netmap_close (sample_os 4096000 (-1)) hw_handle ()).ret = -1 ∧
      (netmap_close (sample_os 4096000 (-1))
        (netmap_close (sample_os 4096000 (-1)) hw_handle ()).nmif ()).ret = -1 ∧
      (netmap_close (sample_os 4096000 (-1))
        (netmap_close (sample_os 4096000 (-1)) hw_handle ()).nmif ()).trace =
        [SysCall.sys_close 3 (-1)] := by
  decide

/-- Claim C6, amended: for every handle state and every outcome of the
system calls, if the first `netmap_close` returns 0 then a second one returns
0 as well, makes no call at all and leaves handle and world as they are; and
in every case the second `netmap_close` releases no event and unmaps
nothing. -/
theorem netmap_close_twice {W : Type} (os : OS W) (h : nm_if) (w : W) :
    ((netmap_close os h w).ret = 0 →
        netmap_close os (netmap_close os h w).nmif (netmap_close os h w).w =
          ⟨0, (netmap_close os h w).nmif, (netmap_close os h w).w, []⟩) ∧
      (∀ e r, SysCall.event_del e r ∉
        (netmap_close os (netmap_close os h w).nmif (netmap_close os h w).w).trace) ∧
      (∀ e, SysCall.event_free e ∉
        (netmap_close os (netmap_close os h w).nmif (netmap_close os h w).w).trace) ∧
      (∀ a l r, SysCall.munmap a l r ∉
        (netmap_close os (netmap_close os h w).nmif (netmap_close os h w).w).trace) := by
  obtain ⟨hev, hmem, hfd, _, _⟩ := netmap_close_handle os h w
  have hm : ¬ ((netmap_close os h w).nmif.nm_if_mem ≠ NULL ∧
      (netmap_close os h w).nmif.nm_if_memsize > 0) := by
    rcases hmem with ⟨_, _, h1, h2⟩ | ⟨h0, h1, h2⟩
    · intro hc; exact hc.1 h1
    · rw [h1, h2]; exact h0
  refine ⟨?_, ?_⟩
  · intro hret
    have hfd1 : (netmap_close os h w).nmif.nm_if_fd = -1 := by
      rcases hfd with ⟨_, h1⟩ | ⟨h1, _⟩
      · exact h1
      · rw [hret] at h1; exact absurd h1 (by decide)
    exact netmap_close_noop os _ _ hev hm hfd1
  · rw [netmap_close_released os _ _ hev hm]
    have hn := close_fd_no_release os (netmap_close os h w).nmif (netmap_close os h w).w
    exact ⟨hn.2.1, hn.2.2.1, hn.1⟩

/-- Claim C6, amended, on an open hardware interface whose system calls all
succeed: both calls return 0 and the second makes no call. -/
theorem netmap_close_twice_witness :
    (netmap_close (sample_os 4096000 0) hw_handle ()).ret = 0 ∧
      netmap_close (sample_os 4096000 0)
          (netmap_close (sample_os 4096000 0) hw_handle ()).nmif
          (netmap_close (sample_os 4096000 0) hw_handle ()).w =
        ⟨0, (netmap_close (sample_os 4096000 0) hw_handle ()).nmif,
          (netmap_close (sample_os 4096000 0) hw_handle ()).w, []⟩ :=
  ⟨by decide, (netmap_close_twice (sample_os 4096000 0) hw_handle ()).1 (by decide)⟩

/-! ## The lifecycle: `netmap_open` -/

/-- The ways through the mapping part of `netmap_open`: the mapping fails and
the handle is closed, or it succeeds and the event is subscribed. -/
theorem open_map_paths {W : Type} (os : OS W) (h : nm_if) (out : nmreq) (w : W) :
    (∃ w1, (open_map os h out w).ret = -1 ∧
        (open_map os h out w).nmif =
          (netmap_close os { h with nm_if_memsize := out.nr_memsize, nm_if_mem := MAP_FAILED } w1).nmif ∧
        (open_map os h out w).trace =
          SysCall.mmap out.nr_memsize h.nm_if_fd MAP_FAILED ::
            (netmap_close os { h with nm_if_memsize := out.nr_memsize, nm_if_mem := MAP_FAILED } w1).trace) ∨
      (∃ m ev r, m ≠ MAP_FAILED ∧ (open_map os h out w).ret = 0 ∧
        (open_map os h out w).nmif =
          { h with nm_if_memsize := out.nr_memsize, nm_if_mem := m, nm_if_ifp := m + out.nr_offset, nm_if_ev_read := ev } ∧
        (open_map os h out w).trace =
          [SysCall.mmap out.nr_memsize h.nm_if_fd m, SysCall.event_new h.nm_if_fd ev,
            SysCall.event_add ev r]) := by
  unfold open_map
  simp only
  split_ifs with h1
  · left
    refine ⟨(os.mmap w out.nr_memsize h.nm_if_fd).2, rfl, ?_, ?_⟩
    · rw [h1]
    · rw [h1]; rfl
  · right
    exact ⟨_, _, _, h1, rfl, rfl, rfl⟩

/-- The ways through `netmap_open`, by the step that decides the outcome.
`pre` is what was called before that step; it holds no `mmap`. -/
theorem netmap_open_paths {W : Type} (os : OS W) (nohostring : Int) (h : nm_if) (w : W) :
    ∃ pre, (∀ l f r, SysCall.mmap l f r ∉ pre) ∧
      ((∃ w1, h.nm_if_vale ≠ 0 ∧ (netmap_vale_attach os h w).1 ≠ 0 ∧
          (netmap_open os nohostring h w).ret = -1 ∧
          (netmap_open os nohostring h w).nmif = (netmap_close os h w1).nmif ∧
          (netmap_open os nohostring h w).trace = pre ++ (netmap_close os h w1).trace) ∨
        ((netmap_open os nohostring h w).ret = -1 ∧
          (netmap_open os nohostring h w).nmif = { h with nm_if_fd := -1 } ∧
          (netmap_open os nohostring h w).trace = pre) ∨
        (∃ fd w1, fd ≠ -1 ∧ (netmap_open os nohostring h w).ret = -1 ∧
          (netmap_open os nohostring h w).nmif =
            (netmap_close os { h with nm_if_fd := fd } w1).nmif ∧
          (netmap_open os nohostring h w).trace =
            pre ++ (netmap_close os { h with nm_if_fd := fd } w1).trace) ∨
        (∃ fd size w1, fd ≠ -1 ∧ (netmap_open os nohostring h w).ret = -1 ∧
          (netmap_open os nohostring h w).nmif =
            (netmap_close os { h with nm_if_fd := fd, nm_if_memsize := size, nm_if_mem := MAP_FAILED } w1).nmif ∧
          (netmap_open os nohostring h w).trace =
            pre ++ SysCall.mmap size fd MAP_FAILED ::
              (netmap_close os { h with nm_if_fd := fd, nm_if_memsize := size, nm_if_mem := MAP_FAILED } w1).trace) ∨
        (∃ fd size m off ev r, fd ≠ -1 ∧ m ≠ MAP_FAILED ∧
          (netmap_open os nohostring h w).ret = 0 ∧
          (netmap_open os nohostring h w).nmif =
            { h with nm_if_fd := fd, nm_if_memsize := size, nm_if_mem := m, nm_if_ifp := m + off, nm_if_ev_read := ev } ∧
          (netmap_open os nohostring h w).trace =
            pre ++ [SysCall.mmap size fd m, SysCall.event_new fd ev,
              SysCall.event_add ev r])) := by
  have hdev : ∀ w0 : W, ∃ pre, (∀ l f r, SysCall.mmap l f r ∉ pre) ∧
      (((open_dev os nohostring h w0).ret = -1 ∧
          (open_dev os nohostring h w0).nmif = { h with nm_if_fd := -1 } ∧
          (open_dev os nohostring h w0).trace = pre) ∨
        (∃ fd w1, fd ≠ -1 ∧ (open_dev os nohostring h w0).ret = -1 ∧
          (open_dev os nohostring h w0).nmif =
            (netmap_close os { h with nm_if_fd := fd } w1).nmif ∧
          (open_dev os nohostring h w0).trace =
            pre ++ (netmap_close os { h with nm_if_fd := fd } w1).trace) ∨
        (∃ fd size w1, fd ≠ -1 ∧ (open_dev os nohostring h w0).ret = -1 ∧
          (open_dev os nohostring h w0).nmif =
            (netmap_close os { h with nm_if_fd := fd, nm_if_memsize := size, nm_if_mem := MAP_FAILED } w1).nmif ∧
          (open_dev os nohostring h w0).trace =
            pre ++ SysCall.mmap size fd MAP_FAILED ::
              (netmap_close os { h with nm_if_fd := fd, nm_if_memsize := size, nm_if_mem := MAP_FAILED } w1).trace) ∨
        (∃ fd size m off ev r, fd ≠ -1 ∧ m ≠ MAP_FAILED ∧
          (open_dev os nohostring h w0).ret = 0 ∧
          (open_dev os nohostring h w0).nmif =
            { h with nm_if_fd := fd, nm_if_memsize := size, nm_if_mem := m, nm_if_ifp := m + off, nm_if_ev_read := ev } ∧
          (open_dev os nohostring h w0).trace =
            pre ++ [SysCall.mmap size fd m, SysCall.event_new fd ev,
              SysCall.event_add ev r])) := by
    intro w0
    unfold open_dev
    simp only
    split_ifs with h1 h2
    · refine ⟨[SysCall.sys_open (os.sys_open w0).1], by simp, Or.inl ⟨rfl, ?_, rfl⟩⟩
      rw [h1]
    · refine ⟨_, ?_, Or.inr (Or.inl ⟨(os.sys_open w0).1, _, h1, rfl, rfl, rfl⟩)⟩
      simp
    · refine ⟨[SysCall.sys_open (os.sys_open w0).1,
        SysCall.ioctl_NIOCREGIF (os.sys_open w0).1
          (regif_request nohostring { h with nm_if_fd := (os.sys_open w0).1 })
          (os.ioctl_NIOCREGIF (os.sys_open w0).2 (os.sys_open w0).1
            (regif_request nohostring { h with nm_if_fd := (os.sys_open w0).1 })).1],
        by simp, ?_⟩
      rcases open_map_paths os { h with nm_if_fd := (os.sys_open w0).1 }
          (os.ioctl_NIOCREGIF (os.sys_open w0).2 (os.sys_open w0).1
            (regif_request nohostring { h with nm_if_fd := (os.sys_open w0).1 })).2.1
          (os.ioctl_NIOCREGIF (os.sys_open w0).2 (os.sys_open w0).1
            (regif_request nohostring { h with nm_if_fd := (os.sys_open w0).1 })).2.2 with
        ⟨w1, e1, e2, e3⟩ | ⟨m, ev, r, hm, e1, e2, e3⟩
      · exact Or.inr (Or.inr (Or.inl ⟨_, _, w1, h1, e1, e2, by rw [e3]⟩))
      · exact Or.inr (Or.inr (Or.inr ⟨_, _, m, _, ev, r, h1, hm, e1, e2, by rw [e3]⟩))
  unfold netmap_open
  simp only
  split_ifs with hv ha
  · refine ⟨(netmap_vale_attach os h w).2.2,
      (vale_cmd_no_release os _ _ _).2.2.2, Or.inl ⟨_, hv, ha, rfl, rfl, rfl⟩⟩
  · obtain ⟨pre, hpre, hcase⟩ := hdev (netmap_vale_attach os h w).2.1
    refine ⟨(netmap_vale_attach os h w).2.2 ++ pre, ?_, Or.inr ?_⟩
    · intro l f r
      rw [List.mem_append, not_or]
      exact ⟨(vale_cmd_no_release os _ _ _).2.2.2 l f r, hpre l f r⟩
    · simp only [List.append_assoc]
      rcases hcase with ⟨e1, e2, e3⟩ | ⟨fd, w1, hfd, e1, e2, e3⟩ |
          ⟨fd, size, w1, hfd, e1, e2, e3⟩ | ⟨fd, size, m, off, ev, r, hfd, hm, e1, e2, e3⟩
      · exact Or.inl ⟨e1, e2, by rw [e3]⟩
      · exact Or.inr (Or.inl ⟨fd, w1, hfd, e1, e2, by rw [e3]⟩)
      · exact Or.inr (Or.inr (Or.inl ⟨fd, size, w1, hfd, e1, e2, by rw [e3]⟩))
      · exact Or.inr (Or.inr (Or.inr ⟨fd, size, m, off, ev, r, hfd, hm, e1, e2, by rw [e3]⟩))
  · obtain ⟨pre, hpre, hcase⟩ := hdev w
    exact ⟨pre, hpre, Or.inr hcase⟩

/-- Claim C7 fails on the code: a hardware handle that starts unopened is
opened successfully and then closed; the descriptor close inside
`netmap_close` fails, `netmap_close` returns -1 before the descriptor is
reset, and the handle keeps descriptor 3, while event, pointer and size are
reset. -/
theorem open_then_close_keeps_descriptor :
    unopened (fresh_handle "em0" 0) ∧
      (netmap_open (sample_os 4096000 (-1)) 0 (fresh_handle "em0" 0) ()).ret = 0 ∧
      (open_then_close (sample_os 4096000 (-1)) 0 (fresh_handle "em0" 0) ()).ret = -1 ∧
      (open_then_close (sample_os 4096000 (-1)) 0 (fresh_handle "em0" 0) ()).nmif.nm_if_fd
        = 3 ∧
      (open_then_close (sample_os 4096000 (-1)) 0 (fresh_handle "em0" 0) ()).nmif.nm_if_mem
        = NULL ∧
      (open_then_close (sample_os 4096000 (-1)) 0
        (fresh_handle "em0" 0) ()).nmif.nm_if_memsize = 0 ∧
      (open_then_close (sample_os 4096000 (-1)) 0
        (fresh_handle "em0" 0) ()).nmif.nm_if_ev_read = NULL := by
  decide

/-- What `netmap_open` followed by `netmap_close` leaves in a handle that
started unopened, for every mode and every outcome of the calls:
* the descriptor is -1 whenever that `netmap_close` returns 0, and otherwise
  `netmap_close` returned -1 because its descriptor close failed;
* the mapped pointer is `NULL`, unless `netmap_open` asked for a mapping of 0
  bytes;
* the mapped size is 0, unless `mmap` returned `NULL` as the address of the
  mapping. -/
theorem open_then_close_unopened {W : Type} (os : OS W) (nohostring : Int) (h : nm_if)
    (w : W) (hu : unopened h) :
    ((open_then_close os nohostring h w).ret = 0 →
        (open_then_close os nohostring h w).nmif.nm_if_fd = -1) ∧
      ((open_then_close os nohostring h w).nmif.nm_if_fd = -1 ∨
        ((open_then_close os nohostring h w).ret = -1 ∧
          SysCall.sys_close (open_then_close os nohostring h w).nmif.nm_if_fd (-1) ∈
            (open_then_close os nohostring h w).trace)) ∧
      ((open_then_close os nohostring h w).nmif.nm_if_mem = NULL ∨
        ∃ fd r, SysCall.mmap 0 fd r ∈ (netmap_open os nohostring h w).trace) ∧
      ((open_then_close os nohostring h w).nmif.nm_if_memsize = 0 ∨
        ∃ l fd, SysCall.mmap l fd NULL ∈ (netmap_open os nohostring h w).trace) := by
  obtain ⟨hfd0, hmem0, hsz0, hev0⟩ := hu
  have hK := netmap_close_handle os (netmap_open os nohostring h w).nmif
    (netmap_open os nohostring h w).w
  obtain ⟨_, hmem, hfd, _, _⟩ := hK
  have hopen : ((netmap_open os nohostring h w).nmif.nm_if_mem = NULL ∧
        (netmap_open os nohostring h w).nmif.nm_if_memsize = 0) ∨
      (∃ fd, SysCall.mmap (netmap_open os nohostring h w).nmif.nm_if_memsize fd
        (netmap_open os nohostring h w).nmif.nm_if_mem ∈
          (netmap_open os nohostring h w).trace) := by
    have hclosed : ∀ (g : nm_if) (w1 : W), g.nm_if_mem = NULL → g.nm_if_memsize = 0 →
        (netmap_close os g w1).nmif.nm_if_mem = NULL ∧
          (netmap_close os g w1).nmif.nm_if_memsize = 0 := by
      intro g w1 hg1 hg2
      obtain ⟨_, hm, _⟩ := netmap_close_handle os g w1
      rcases hm with ⟨_, _, h1, h2⟩ | ⟨_, h1, h2⟩
      · exact ⟨h1, h2⟩
      · exact ⟨by rw [h1, hg1], by rw [h2, hg2]⟩
    obtain ⟨pre, _, hp⟩ := netmap_open_paths os nohostring h w
    rcases hp with ⟨w1, _, _, _, e2, _⟩ | ⟨_, e2, _⟩ | ⟨fd, w1, _, _, e2, _⟩ |
        ⟨fd, size, w1, _, _, e2, e3⟩ | ⟨fd, size, m, off, ev, r, _, _, _, e2, e3⟩
    · left; rw [e2]; exact hclosed h w1 hmem0 hsz0
    · left; rw [e2]; exact ⟨hmem0, hsz0⟩
    · left; rw [e2]; exact hclosed _ w1 hmem0 hsz0
    · obtain ⟨_, hm, _⟩ := netmap_close_handle os
        { h with nm_if_fd := fd, nm_if_memsize := size, nm_if_mem := MAP_FAILED } w1
      rcases hm with ⟨_, _, h1, h2⟩ | ⟨h0, h1, h2⟩
      · left; rw [e2]; exact ⟨h1, h2⟩
      · right
        refine ⟨fd, ?_⟩
        rw [e2, h1, h2, e3]
        simp
    · right
      refine ⟨fd, ?_⟩
      rw [e2, e3]
      simp
  unfold open_then_close
  refine ⟨?_, ?_, ?_, ?_⟩
  · intro hret
    rcases hfd with ⟨_, h1⟩ | ⟨h1, _⟩
    · exact h1
    · rw [hret] at h1; exact absurd h1 (by decide)
  · rcases hfd with ⟨_, h1⟩ | ⟨h1, h2, _, h4⟩
    · exact Or.inl h1
    · right
      rw [h2]
      exact ⟨h1, h4⟩
  · rcases hmem with ⟨_, _, h1, _⟩ | ⟨h0, h1, _⟩
    · exact Or.inl h1
    · rcases hopen with ⟨h3, _⟩ | ⟨fd, h3⟩
      · left; rw [h1]; exact h3
      · by_cases hn : (netmap_open os nohostring h w).nmif.nm_if_mem = NULL
        · left; rw [h1]; exact hn
        · right
          have hz : (netmap_open os nohostring h w).nmif.nm_if_memsize = 0 := by
            by_contra hc
            exact h0 ⟨hn, Nat.pos_of_ne_zero hc⟩
          rw [hz] at h3
          exact ⟨fd, _, h3⟩
  · rcases hmem with ⟨_, _, _, h2⟩ | ⟨h0, _, h2⟩
    · exact Or.inl h2
    · rcases hopen with ⟨_, h3⟩ | ⟨fd, h3⟩
      · left; rw [h2]; exact h3
      · by_cases hz : (netmap_open os nohostring h w).nmif.nm_if_memsize = 0
        · left; rw [h2]; exact hz
        · right
          have hn : (netmap_open os nohostring h w).nmif.nm_if_mem = NULL := by
            by_contra hc
            exact h0 ⟨hc, Nat.pos_of_ne_zero hz⟩
          rw [hn] at h3
          exact ⟨_, fd, h3⟩

/-- A virtual-switch port whose system calls all succeed: after open and
close the handle is back at descriptor -1, pointer `NULL`, size 0. -/
theorem open_then_close_vale_example :
    unopened (fresh_handle "vale0:em0" 1) ∧
      (open_then_close (sample_os 4096000 0) 1 (fresh_handle "vale0:em0" 1) ()).ret = 0 ∧
      (open_then_close (sample_os 4096000 0) 1 (fresh_handle "vale0:em0" 1) ()).nmif.nm_if_fd
        = -1 ∧
      (open_then_close (sample_os 4096000 0) 1 (fresh_handle "vale0:em0" 1) ()).nmif.nm_if_mem
        = NULL ∧
      (open_then_close (sample_os 4096000 0) 1
        (fresh_handle "vale0:em0" 1) ()).nmif.nm_if_memsize = 0 := by
  have hu : unopened (fresh_handle "vale0:em0" 1) := by decide
  have hret : (open_then_close (sample_os 4096000 0) 1
      (fresh_handle "vale0:em0" 1) ()).ret = 0 := by decide
  obtain ⟨h1, _, _, _⟩ :=
    open_then_close_unopened (sample_os 4096000 0) 1 (fresh_handle "vale0:em0" 1) () hu
  exact ⟨hu, hret, h1 hret, by decide, by decide⟩

/-- After a failed mapping, for every handle that starts unopened and
whatever the other calls return: `netmap_open` returns -1, a subsequent
`netmap_close` attempts no unmap, the descriptor is back at -1 unless the
descriptor close issued by `netmap_open` failed, and with the descriptor at -1
the subsequent `netmap_close` returns 0 without making any call. -/
theorem mmap_failure_then_close {W : Type} (os : OS W) (nohostring : Int) (h : nm_if)
    (w : W) (hu : unopened h)
    (hm : ∃ l f, SysCall.mmap l f MAP_FAILED ∈ (netmap_open os nohostring h w).trace) :
    (netmap_open os nohostring h w).ret = -1 ∧
      (∀ a l r, SysCall.munmap a l r ∉ (open_then_close os nohostring h w).trace) ∧
      ((netmap_open os nohostring h w).nmif.nm_if_fd = -1 ∨
        SysCall.sys_close (netmap_open os nohostring h w).nmif.nm_if_fd (-1) ∈
          (netmap_open os nohostring h w).trace) ∧
      ((netmap_open os nohostring h w).nmif.nm_if_fd = -1 →
        open_then_close os nohostring h w =
          ⟨0, (netmap_open os nohostring h w).nmif, (netmap_open os nohostring h w).w, []⟩) := by
  obtain ⟨_, _, _, hev0⟩ := hu
  obtain ⟨l, f, hm⟩ := hm
  obtain ⟨pre, hpre, hp⟩ := netmap_open_paths os nohostring h w
  have hD : ∃ fd size w1, (netmap_open os nohostring h w).ret = -1 ∧
      (netmap_open os nohostring h w).nmif =
        (netmap_close os { h with nm_if_fd := fd, nm_if_memsize := size, nm_if_mem := MAP_FAILED } w1).nmif ∧
      (netmap_open os nohostring h w).trace =
        pre ++ SysCall.mmap size fd MAP_FAILED ::
          (netmap_close os { h with nm_if_fd := fd, nm_if_memsize := size, nm_if_mem := MAP_FAILED } w1).trace := by
    rcases hp with ⟨w1, _, _, _, _, e3⟩ | ⟨_, _, e3⟩ | ⟨fd, w1, _, _, _, e3⟩ |
        ⟨fd, size, w1, _, e1, e2, e3⟩ | ⟨fd, size, m, off, ev, r, _, hne, _, _, e3⟩
    · rw [e3, List.mem_append] at hm
      rcases hm with hm | hm
      · exact absurd hm (hpre _ _ _)
      · exact absurd hm (netmap_close_no_mmap os _ _ _ _ _)
    · rw [e3] at hm
      exact absurd hm (hpre _ _ _)
    · rw [e3, List.mem_append] at hm
      rcases hm with hm | hm
      · exact absurd hm (hpre _ _ _)
      · exact absurd hm (netmap_close_no_mmap os _ _ _ _ _)
    · exact ⟨fd, size, w1, e1, e2, e3⟩
    · rw [e3, List.mem_append] at hm
      rcases hm with hm | hm
      · exact absurd hm (hpre _ _ _)
      · simp only [List.mem_cons, SysCall.mmap.injEq, List.mem_singleton, reduceCtorEq,
          or_false, List.not_mem_nil] at hm
        exact absurd hm.2.2.symm hne
  obtain ⟨fd, size, w1, e1, e2, e3⟩ := hD
  obtain ⟨kev, kmem, kfd, _, _⟩ := netmap_close_handle os
    { h with nm_if_fd := fd, nm_if_memsize := size, nm_if_mem := MAP_FAILED } w1
  have hev : (netmap_open os nohostring h w).nmif.nm_if_ev_read = NULL := by
    rw [e2]; exact kev
  have hnm : ¬ ((netmap_open os nohostring h w).nmif.nm_if_mem ≠ NULL ∧
      (netmap_open os nohostring h w).nmif.nm_if_memsize > 0) := by
    rw [e2]
    rcases kmem with ⟨_, _, h1, _⟩ | ⟨h0, h1, h2⟩
    · intro hc; exact hc.1 h1
    · rw [h1, h2]; exact h0
  have hc : open_then_close os nohostring h w =
      close_fd os (netmap_open os nohostring h w).nmif (netmap_open os nohostring h w).w := by
    unfold open_then_close
    exact netmap_close_released os _ _ hev hnm
  refine ⟨e1, ?_, ?_, ?_⟩
  · rw [hc]
    exact (close_fd_no_release os _ _).1
  · rcases kfd with ⟨_, k2⟩ | ⟨_, k2, _, k4⟩
    · left
      rw [e2]
      exact k2
    · right
      rw [e3, e2, k2]
      simp only [List.mem_append, List.mem_cons]
      exact Or.inr (Or.inr k4)
  · intro hfd
    rw [hc]
    exact close_fd_closed os _ _ hfd

/-- Claim C10: for every handle that starts unopened and every reported
region size, if the mapping call fails (`mmap`, which is only reached after a
successful registration, returns `MAP_FAILED`) and, as in the scenario, the
descriptor close that `netmap_open` then issues goes through, `netmap_open`
returns -1 and a subsequent `netmap_close` on the same handle returns 0
without attempting to unmap anything: it makes no call at all and leaves the
handle as it is. -/
theorem close_after_mmap_failure {W : Type} (os : OS W) (nohostring : Int) (h : nm_if)
    (w : W) (hu : unopened h)
    (hm : ∃ l f, SysCall.mmap l f MAP_FAILED ∈ (netmap_open os nohostring h w).trace)
    (hc : ∀ fd, SysCall.sys_close fd (-1) ∉ (netmap_open os nohostring h w).trace) :
    (netmap_open os nohostring h w).ret = -1 ∧
      (open_then_close os nohostring h w).ret = 0 ∧
      (∀ a l r, SysCall.munmap a l r ∉ (open_then_close os nohostring h w).trace) ∧
      (open_then_close os nohostring h w).trace = [] ∧
      (open_then_close os nohostring h w).nmif = (netmap_open os nohostring h w).nmif := by
  obtain ⟨h1, h2, h3, h4⟩ := mmap_failure_then_close os nohostring h w hu hm
  have hfd : (netmap_open os nohostring h w).nmif.nm_if_fd = -1 := by
    rcases h3 with h3 | h3
    · exact h3
    · exact absurd h3 (hc _)
  have e := h4 hfd
  refine ⟨h1, ?_, h2, ?_, ?_⟩
  · rw [e]
  · rw [e]
  · rw [e]

/-- Claim C10 where `mmap` fails and every other call succeeds, with a
reported region of 4096 bytes: `netmap_open` returns -1 and the subsequent
`netmap_close` returns 0 without making any call. -/
theorem close_after_mmap_failure_witness :
    unopened (fresh_handle "em0" 0) ∧
      (∃ l f, SysCall.mmap l f MAP_FAILED ∈
        (netmap_open (sample_os (-1) 0) 0 (fresh_handle "em0" 0) ()).trace) ∧
      (∀ fd, SysCall.sys_close fd (-1) ∉
        (netmap_open (sample_os (-1) 0) 0 (fresh_handle "em0" 0) ()).trace) ∧
      (netmap_open (sample_os (-1) 0) 0 (fresh_handle "em0" 0) ()).ret = -1 ∧
      (open_then_close (sample_os (-1) 0) 0 (fresh_handle "em0" 0) ()).ret = 0 ∧
      (∀ a l r, SysCall.munmap a l r ∉
        (open_then_close (sample_os (-1) 0) 0 (fresh_handle "em0" 0) ()).trace) ∧
      (open_then_close (sample_os (-1) 0) 0 (fresh_handle "em0" 0) ()).trace = [] := by
  have hu : unopened (fresh_handle "em0" 0) := by decide
  have hm : ∃ l f, SysCall.mmap l f MAP_FAILED ∈
      (netmap_open (sample_os (-1) 0) 0 (fresh_handle "em0" 0) ()).trace :=
    ⟨4096, 3, by decide⟩
  have hc : ∀ fd, SysCall.sys_close fd (-1) ∉
      (netmap_open (sample_os (-1) 0) 0 (fresh_handle "em0" 0) ()).trace := by
    intro fd hfd
    have e : (netmap_open (sample_os (-1) 0) 0 (fresh_handle "em0" 0) ()).trace =
        [SysCall.sys_open 3,
          SysCall.ioctl_NIOCREGIF 3 (regif_request 0 (fresh_handle "em0" 0)) 0,
          SysCall.mmap 4096 3 (-1), SysCall.munmap (-1) 4096 0, SysCall.sys_close 3 0] := by
      decide
    rw [e] at hfd
    simp at hfd
  obtain ⟨h1, h2, h3, h4, _⟩ :=
    close_after_mmap_failure (sample_os (-1) 0) 0 (fresh_handle "em0" 0) () hu hm hc
  exact ⟨hu, hm, hc, h1, h2, h3, h4⟩

/-! ## Names in the requests -/

theorem registered_names_append (a b : List SysCall) :
    registered_names (a ++ b) = registered_names a ++ registered_names b := by
  induction a with
  | nil => rfl
  | cons x t ih =>
    cases x <;> simp only [List.cons_append, registered_names] <;>
      first
        | exact ih
        | (split_ifs <;> simp [ih])

theorem attach_names_append (a b : List SysCall) :
    attach_names (a ++ b) = attach_names a ++ attach_names b := by
  induction a with
  | nil => rfl
  | cons x t ih =>
    cases x <;> simp only [List.cons_append, attach_names] <;>
      first
        | exact ih
        | (split_ifs <;> simp [ih])

/-- A bridge command session registers nothing; it carries the name it was
given, cut to the size of the name field. -/
theorem vale_cmd_names {W : Type} (os : OS W) (name : List Char) (cmd : nr_cmd_t) (w : W)
    (hcmd : cmd ≠ nr_cmd_t.zero) :
    registered_names (netmap_vale_cmd os name cmd w).2.2 = [] ∧
      attach_names (netmap_vale_cmd os name cmd w).2.2 =
        if (os.sys_open w).1 ≠ -1 ∧ cmd = nr_cmd_t.NETMAP_BDG_ATTACH
        then [strlcpy name NR_NAME_SIZE] else [] := by
  unfold netmap_vale_cmd
  simp only
  split_ifs with h1 h2 h3 <;>
    simp_all [registered_names, attach_names, nmreq_zero]

theorem netmap_close_names {W : Type} (os : OS W) (h : nm_if) (w : W) :
    registered_names (netmap_close os h w).trace = [] ∧
      attach_names (netmap_close os h w).trace = [] := by
  have hd := fun w1 => vale_cmd_names os h.nm_if_name nr_cmd_t.NETMAP_BDG_DETACH w1
    (by decide)
  unfold netmap_close close_event close_unmap close_fd netmap_vale_detach
  simp only
  split_ifs <;>
    simp_all [registered_names, attach_names, registered_names_append, attach_names_append]

theorem open_map_names {W : Type} (os : OS W) (h : nm_if) (out : nmreq) (w : W) :
    registered_names (open_map os h out w).trace = [] ∧
      attach_names (open_map os h out w).trace = [] := by
  unfold open_map
  simp only
  split_ifs <;>
    simp [registered_names, attach_names, netmap_close_names]

theorem regif_request_name (nohostring : Int) (h : nm_if) :
    (regif_request nohostring h).nr_name = strlcpy (ifname h) NR_NAME_SIZE ∧
      (regif_request nohostring h).nr_cmd = nr_cmd_t.zero := by
  unfold regif_request
  simp only
  split_ifs <;> exact ⟨rfl, rfl⟩

theorem ifname_fd (h : nm_if) (fd : Int) : ifname { h with nm_if_fd := fd } = ifname h := rfl

/-- Past the attach step `netmap_open` makes no attach request, and it
registers, once the device is open, under the name lines 129-144 chose. -/
theorem open_dev_names {W : Type} (os : OS W) (nohostring : Int) (h : nm_if) (w : W) :
    registered_names (open_dev os nohostring h w).trace =
        (if (os.sys_open w).1 = -1 then [] else [strlcpy (ifname h) NR_NAME_SIZE]) ∧
      attach_names (open_dev os nohostring h w).trace = [] ∧
      ((open_dev os nohostring h w).ret = 0 → (os.sys_open w).1 ≠ -1) := by
  have hr := regif_request_name nohostring { h with nm_if_fd := (os.sys_open w).1 }
  rw [ifname_fd] at hr
  unfold open_dev
  simp only
  split_ifs with h1 h2
  · simp [registered_names, attach_names]
  · refine ⟨?_, ?_, fun _ => h1⟩
    · simp [registered_names, registered_names_append, netmap_close_names, hr.1, hr.2]
    · simp [attach_names, attach_names_append, netmap_close_names, hr.2]
  · refine ⟨?_, ?_, fun _ => h1⟩
    · simp [registered_names, registered_names_append, open_map_names, hr.1, hr.2]
    · simp [attach_names, attach_names_append, open_map_names, hr.2]

theorem take_indexOf (l : List Char) (c : Char) :
    l.take (l.indexOf c) = l.takeWhile (fun x => x != c) := by
  induction l with
  | nil => rfl
  | cons x t ih =>
    by_cases hx : x = c
    · subst hx
      simp [List.indexOf_cons_self, List.takeWhile_cons]
    · rw [List.indexOf_cons_ne _ (fun e => hx e), List.take_succ_cons, ih,
        List.takeWhile_cons]
      simp [hx]

/-- Lines 136-141 on a port name with a `':'` after at most 7 characters: the
part in front of the `':'` followed by `":nmfwd0"`, nothing cut off. -/
theorem ifname_vale (h : nm_if) (hv : h.nm_if_vale ≠ 0) (hc : ':' ∈ h.nm_if_name)
    (hl : (base_name h.nm_if_name).length ≤ 7) :
    strlcpy (ifname h) NR_NAME_SIZE = base_name h.nm_if_name ++ ":nmfwd0".toList := by
  unfold ifname strchr
  rw [if_pos hv, if_pos hc]
  simp only
  rw [take_indexOf]
  unfold base_name at hl
  unfold strlcpy snprintf base_name
  have hlen : (List.takeWhile (fun x => x != ':') h.nm_if_name ++ ":nmfwd0".toList).length
      ≤ 14 := by
    rw [List.length_append]
    have : (":nmfwd0".toList).length = 7 := by decide
    omega
  have e1 : List.take (IF_NAMESIZE - 1 - 1)
      (List.takeWhile (fun x => x != ':') h.nm_if_name ++ ":nmfwd0".toList) =
      List.takeWhile (fun x => x != ':') h.nm_if_name ++ ":nmfwd0".toList :=
    List.take_of_length_le (by simp only [IF_NAMESIZE]; omega)
  rw [e1]
  exact List.take_of_length_le (by simp only [NR_NAME_SIZE]; omega)

/-- Hardware mode: a name that fits the name field is registered unchanged. -/
theorem ifname_hw (h : nm_if) (hv : h.nm_if_vale = 0)
    (hl : h.nm_if_name.length < IF_NAMESIZE) :
    strlcpy (ifname h) NR_NAME_SIZE = h.nm_if_name := by
  unfold ifname strlcpy
  rw [if_neg (by simp [hv])]
  unfold IF_NAMESIZE at hl
  rw [List.take_of_length_le (by simp only [NR_NAME_SIZE]; omega)]

/-- The registration requests of `netmap_open`: at most one, under the name
lines 129-153 chose, and exactly one when `netmap_open` returns 0. -/
theorem netmap_open_registered {W : Type} (os : OS W) (nohostring : Int) (h : nm_if)
    (w : W) :
    (∀ n ∈ registered_names (netmap_open os nohostring h w).trace,
        n = strlcpy (ifname h) NR_NAME_SIZE) ∧
      ((netmap_open os nohostring h w).ret = 0 →
        registered_names (netmap_open os nohostring h w).trace =
          [strlcpy (ifname h) NR_NAME_SIZE]) := by
  have hdev : ∀ w0 : W,
      (∀ n ∈ registered_names (open_dev os nohostring h w0).trace,
        n = strlcpy (ifname h) NR_NAME_SIZE) ∧
      ((open_dev os nohostring h w0).ret = 0 →
        registered_names (open_dev os nohostring h w0).trace =
          [strlcpy (ifname h) NR_NAME_SIZE]) := by
    intro w0
    obtain ⟨h1, _, h3⟩ := open_dev_names os nohostring h w0
    rw [h1]
    constructor
    · intro n hn
      split_ifs at hn with hs
      · simp at hn
      · simpa using hn
    · intro hret
      rw [if_neg (h3 hret)]
  unfold netmap_open
  simp only
  split_ifs with hv ha
  · simp [registered_names_append, netmap_close_names, netmap_vale_attach,
      (vale_cmd_names os h.nm_if_name nr_cmd_t.NETMAP_BDG_ATTACH w (by decide)).1]
  · simp only [registered_names_append, netmap_vale_attach,
      (vale_cmd_names os h.nm_if_name nr_cmd_t.NETMAP_BDG_ATTACH w (by decide)).1,
      List.nil_append]
    exact hdev _
  · exact hdev w

/-- Claim C8 as stated fails: for the port name `"longbridge:p1"` the claim
gives the registration name `"longbridge:nmfwd0"`, which does not fit the
16-byte name field; `netmap_open` registers `"longbridge:nmf"`. -/
theorem registration_name_cut :
    (fresh_handle "longbridge:p1" 1).nm_if_vale ≠ 0 ∧
      registered_names
        (netmap_open (sample_os 4096000 0) 0 (fresh_handle "longbridge:p1" 1) ()).trace =
          ["longbridge:nmf".toList] ∧
      base_name (fresh_handle "longbridge:p1" 1).nm_if_name ++ ":nmfwd0".toList =
        "longbridge:nmfwd0".toList ∧
      "longbridge:nmf".toList ≠ "longbridge:nmfwd0".toList := by
  decide

/-- Claim C8, amended: in virtual-switch-port mode, for every interface name
that has a `':'` with at most 7 characters in front of the first one, every
registration request of `netmap_open` carries the name cut at (and excluding)
its first `':'` followed by `":nmfwd0"`, and a successful `netmap_open` made
exactly one such request.  In hardware mode the same holds with the interface
name unchanged, for names that fit the name field (fewer than `IF_NAMESIZE`
characters). -/
theorem netmap_open_registration_name {W : Type} (os : OS W) (nohostring : Int)
    (h : nm_if) (w : W) :
    (h.nm_if_vale ≠ 0 → ':' ∈ h.nm_if_name → (base_name h.nm_if_name).length ≤ 7 →
        (∀ n ∈ registered_names (netmap_open os nohostring h w).trace,
          n = base_name h.nm_if_name ++ ":nmfwd0".toList) ∧
        ((netmap_open os nohostring h w).ret = 0 →
          registered_names (netmap_open os nohostring h w).trace =
            [base_name h.nm_if_name ++ ":nmfwd0".toList])) ∧
      (h.nm_if_vale = 0 → h.nm_if_name.length < IF_NAMESIZE →
        (∀ n ∈ registered_names (netmap_open os nohostring h w).trace,
          n = h.nm_if_name) ∧
        ((netmap_open os nohostring h w).ret = 0 →
          registered_names (netmap_open os nohostring h w).trace = [h.nm_if_name])) := by
  have hreg := netmap_open_registered os nohostring h w
  constructor
  · intro hv hc hl
    rw [← ifname_vale h hv hc hl]
    exact hreg
  · intro hv hl
    have e := ifname_hw h hv hl
    rw [e] at hreg
    exact hreg

/-- Claim C8, amended, at the names of the claim: the port `"em0:port1"`
registers as `"em0:nmfwd0"`, the hardware interface `"em0"` as `"em0"`. -/
theorem netmap_open_registration_name_witness :
    ((fresh_handle "em0:port1" 1).nm_if_vale ≠ 0 ∧
        ':' ∈ (fresh_handle "em0:port1" 1).nm_if_name ∧
        (base_name (fresh_handle "em0:port1" 1).nm_if_name).length ≤ 7 ∧
        (netmap_open (sample_os 4096000 0) 0 (fresh_handle "em0:port1" 1) ()).ret = 0 ∧
        registered_names
          (netmap_open (sample_os 4096000 0) 0 (fresh_handle "em0:port1" 1) ()).trace =
            [base_name (fresh_handle "em0:port1" 1).nm_if_name ++ ":nmfwd0".toList] ∧
        base_name (fresh_handle "em0:port1" 1).nm_if_name ++ ":nmfwd0".toList =
          "em0:nmfwd0".toList) ∧
      ((fresh_handle "em0" 0).nm_if_vale = 0 ∧
        (fresh_handle "em0" 0).nm_if_name.length < IF_NAMESIZE ∧
        (netmap_open (sample_os 4096000 0) 0 (fresh_handle "em0" 0) ()).ret = 0 ∧
        registered_names
          (netmap_open (sample_os 4096000 0) 0 (fresh_handle "em0" 0) ()).trace =
            [(fresh_handle "em0" 0).nm_if_name]) :=
  ⟨⟨by decide, by decide, by decide, by decide,
      ((netmap_open_registration_name (sample_os 4096000 0) 0
        (fresh_handle "em0:port1" 1) ()).1 (by decide) (by decide) (by decide)).2
        (by decide), by decide⟩,
    ⟨by decide, by decide, by decide,
      ((netmap_open_registration_name (sample_os 4096000 0) 0
        (fresh_handle "em0" 0) ()).2 (by decide) (by decide)).2 (by decide)⟩⟩

/-- Claim C9 as stated fails: opening the port `"em0:port1"` issues the
attach request under the name `"em0:port1"`, not under the base name
`"em0"`. -/
theorem attach_carries_full_name :
    (fresh_handle "em0:port1" 1).nm_if_vale ≠ 0 ∧
      attach_names
        (netmap_open (sample_os 4096000 0) 0 (fresh_handle "em0:port1" 1) ()).trace =
          ["em0:port1".toList] ∧
      base_name (fresh_handle "em0:port1" 1).nm_if_name = "em0".toList ∧
      "em0:port1".toList ≠ "em0".toList := by
  decide

/-- Claim C9, amended: in virtual-switch-port mode `netmap_open` starts with
the attach session `netmap_vale_attach`, whose request (made once its private
control session is open) carries the interface name as it stands, cut only to
the size of the name field; no other attach request is made.  `netmap_open`
returns 0 only if the attach returned 0.  When the attach fails,
`netmap_open` returns -1 having done nothing but the attach and
`netmap_close`: it registers nothing and maps nothing, and on a handle that
started unopened it makes no call besides the attach session and leaves the
handle as it was. -/
theorem netmap_open_vale_attach {W : Type} (os : OS W) (nohostring : Int) (h : nm_if)
    (w : W) (hv : h.nm_if_vale ≠ 0) :
    (netmap_vale_attach os h w).2.2 <+: (netmap_open os nohostring h w).trace ∧
      attach_names (netmap_open os nohostring h w).trace =
        (if (os.sys_open w).1 ≠ -1 then [strlcpy h.nm_if_name NR_NAME_SIZE] else []) ∧
      (h.nm_if_name.length < NR_NAME_SIZE →
        strlcpy h.nm_if_name NR_NAME_SIZE = h.nm_if_name) ∧
      ((netmap_open os nohostring h w).ret = 0 → (netmap_vale_attach os h w).1 = 0) ∧
      ((netmap_vale_attach os h w).1 ≠ 0 →
        (netmap_open os nohostring h w).ret = -1 ∧
        (netmap_open os nohostring h w).trace =
          (netmap_vale_attach os h w).2.2 ++
            (netmap_close os h (netmap_vale_attach os h w).2.1).trace ∧
        (netmap_open os nohostring h w).nmif =
          (netmap_close os h (netmap_vale_attach os h w).2.1).nmif ∧
        registered_names (netmap_open os nohostring h w).trace = [] ∧
        (∀ l f r, SysCall.mmap l f r ∉ (netmap_open os nohostring h w).trace) ∧
        (unopened h →
          (netmap_open os nohostring h w).trace = (netmap_vale_attach os h w).2.2 ∧
          (netmap_open os nohostring h w).nmif = h)) := by
  have hatt := vale_cmd_names os h.nm_if_name nr_cmd_t.NETMAP_BDG_ATTACH w (by decide)
  have hnames : attach_names (netmap_open os nohostring h w).trace =
      attach_names (netmap_vale_attach os h w).2.2 := by
    unfold netmap_open
    simp only
    rw [if_pos hv]
    split_ifs with ha
    · simp [attach_names_append, netmap_close_names]
    · simp [attach_names_append, (open_dev_names os nohostring h _).2.1]
  refine ⟨?_, ?_, ?_, ?_, ?_⟩
  · unfold netmap_open
    simp only
    rw [if_pos hv]
    split_ifs with ha
    · exact List.prefix_append _ _
    · exact List.prefix_append _ _
  · rw [hnames]
    unfold netmap_vale_attach
    rw [hatt.2]
    simp
  · intro hl
    unfold strlcpy
    exact List.take_of_length_le (by omega)
  · intro hret
    by_contra ha
    unfold netmap_open at hret
    simp only at hret
    rw [if_pos hv, if_pos ha] at hret
    have hne : (-1 : Int) ≠ 0 := by decide
    exact hne hret
  · intro ha
    have e : netmap_open os nohostring h w =
        ⟨-1, (netmap_close os h (netmap_vale_attach os h w).2.1).nmif,
          (netmap_close os h (netmap_vale_attach os h w).2.1).w,
          (netmap_vale_attach os h w).2.2 ++
            (netmap_close os h (netmap_vale_attach os h w).2.1).trace⟩ := by
      unfold netmap_open
      simp only
      rw [if_pos hv, if_pos ha]
    rw [e]
    refine ⟨rfl, rfl, rfl, ?_, ?_, ?_⟩
    · simp only [registered_names_append, netmap_close_names, netmap_vale_attach, hatt.1,
        List.append_nil]
    · intro l f r
      simp only [List.mem_append, not_or]
      exact ⟨(vale_cmd_no_release os _ _ _).2.2.2 l f r, netmap_close_no_mmap os _ _ l f r⟩
    · intro hu
      obtain ⟨hfd0, hmem0, _, hev0⟩ := hu
      rw [netmap_close_noop os h _ hev0 (fun hc => hc.1 hmem0) hfd0]
      simp

/-- Claim C9, amended, on the port `"em0:port1"`: the attach request carries
`"em0:port1"`, and `netmap_open` succeeds after a successful attach. -/
theorem netmap_open_vale_attach_witness :
    (fresh_handle "em0:port1" 1).nm_if_vale ≠ 0 ∧
      attach_names
        (netmap_open (sample_os 4096000 0) 0 (fresh_handle "em0:port1" 1) ()).trace =
          ["em0:port1".toList] ∧
      (netmap_open (sample_os 4096000 0) 0 (fresh_handle "em0:port1" 1) ()).ret = 0 ∧
      (netmap_vale_attach (sample_os 4096000 0) (fresh_handle "em0:port1" 1) ()).1 = 0 := by
  have hv : (fresh_handle "em0:port1" 1).nm_if_vale ≠ 0 := by decide
  obtain ⟨_, h2, _, h4, _⟩ :=
    netmap_open_vale_attach (sample_os 4096000 0) 0 (fresh_handle "em0:port1" 1) () hv
  have hret : (netmap_open (sample_os 4096000 0) 0 (fresh_handle "em0:port1" 1) ()).ret
      = 0 := by decide
  refine ⟨hv, ?_, hret, h4 hret⟩
  rw [h2]
  decide

end Netmap
